import Mathlib

/-!
Verification development for the bidirectional ONNX / visual-node-graph
translator of OnnxGraphQt (onnxgraphqt/graph/onnx_node_graph.py).

The Python source is shallowly embedded: tensors, attribute values and graph
records become Lean structures; the translation passes become pure functions;
Python exceptions become explicit Except errors.  Machine-level details that
the translator never observes (dtype object internals, numpy memory layout)
are kept symbolic: a numpy dtype is represented by its canonical string form,
since the source only ever moves dtypes through str() and dict lookups keyed
by np.dtype(s), and np.dtype round-trips those strings.
-/

set_option autoImplicit false

namespace OnnxGraphQt

/-- Nested numeric value, as produced by numpy ndarray.tolist(): either a
scalar or a (possibly nested) list.  Element payloads are modelled as Int. -/
inductive Nest where
  | num (n : Int)
  | arr (xs : List Nest)
deriving Repr

mutual

/-- Decidable equality for nested values (deriving cannot handle the nested
List occurrence). -/
def Nest.decEq : (a b : Nest) → Decidable (a = b)
  | .num a, .num b =>
    if h : a = b then .isTrue (by rw [h]) else .isFalse (fun hh => h (Nest.num.inj hh))
  | .num _, .arr _ => .isFalse (fun h => Nest.noConfusion h)
  | .arr _, .num _ => .isFalse (fun h => Nest.noConfusion h)
  | .arr xs, .arr ys =>
    match Nest.decEqList xs ys with
    | .isTrue h => .isTrue (by rw [h])
    | .isFalse h => .isFalse (fun hh => h (Nest.arr.inj hh))

/-- Decidable equality for lists of nested values. -/
def Nest.decEqList : (xs ys : List Nest) → Decidable (xs = ys)
  | [], [] => .isTrue rfl
  | [], _ :: _ => .isFalse (fun h => List.noConfusion h)
  | _ :: _, [] => .isFalse (fun h => List.noConfusion h)
  | x :: xs, y :: ys =>
    match Nest.decEq x y, Nest.decEqList xs ys with
    | .isTrue h1, .isTrue h2 => .isTrue (by rw [h1, h2])
    | .isFalse h1, _ => .isFalse (fun h => h1 (List.cons.inj h).1)
    | .isTrue _, .isFalse h2 => .isFalse (fun h => h2 (List.cons.inj h).2)

end

instance : DecidableEq Nest := Nest.decEq

mutual

/-- Row-major flattening of a nested value. -/
def flattenNest : Nest → List Int
  | .num n => [n]
  | .arr xs => flattenList xs

/-- Row-major flattening of a list of nested values. -/
def flattenList : List Nest → List Int
  | [] => []
  | x :: xs => flattenNest x ++ flattenList xs

end

/-- Models numpy ndarray.tolist() on a tensor held as a flat row-major payload
plus a shape: a 0-d array yields its single scalar, an n-d array yields a
nested list split in row-major order. -/
def tolist (shape : List Nat) (data : List Int) : Nest :=
  match shape with
  | [] => .num (data.headD 0)
  | _ :: rest =>
    .arr ((List.range (shape.headD 0)).map fun i =>
      tolist rest ((data.drop (i * rest.prod)).take rest.prod))

/-- A numpy ndarray as the translator observes it: a dtype string, a shape and
a flat row-major payload.  (gs.Constant.values is such an array; its dtype is
only ever read through str() or np.dtype, and its contents through .tolist(),
.shape and element count.) -/
structure NpTensor where
  dtype : String
  shape : List Nat
  data : List Int
deriving Repr, DecidableEq

/-- A tensor reference of the exchange-format graph, as onnx_graphsurgeon
hands it to the translator.  gs.Tensor itself is an abstract class whose
constructor raises, so every tensor the code can receive is a gs.Variable, a
gs.Constant, or some foreign object; the three constructors mirror that.
For a gs.Constant, dtype and shape are derived from its values array. -/
inductive GsTensor where
  | var (name : String) (dtype : Option String) (shape : Option (List Nat))
  | const (name : String) (values : NpTensor)
  | other (name : String)
deriving Repr, DecidableEq

/-- The .name attribute every tensor-like object carries. -/
def tname : GsTensor → String
  | .var n _ _ => n
  | .const n _ => n
  | .other n => n

/-- Operator attribute value: string, nested numeric value (covers Python
scalars and lists), or a raw tensor payload (a gs.Constant stored in attrs,
whose wrapper name the translator never reads). -/
inductive AttrVal where
  | str (s : String)
  | nest (v : Nest)
  | tensor (t : NpTensor)
deriving Repr, DecidableEq

/-- Ordered attribute mapping (Python dict / OrderedDict in insertion
order). -/
abbrev Attrs := List (String × AttrVal)

/-- The per-port tensor record stored on a visual Operator vertex
(onnx_node.OnnxNodeIO): name, dtype string, shape and optional constant
values, any of which may be absent. -/
structure OnnxNodeIO where
  name : String
  dtype : Option String
  shape : Option (List Nat)
  values : Option Nest
deriving Repr, DecidableEq

/-- An exchange-format operator record (gs.Node): op type, node name, ordered
attributes and ordered input/output tensors. -/
structure GsNode where
  op : String
  name : String
  attrs : Attrs
  inputs : List GsTensor
  outputs : List GsTensor
deriving Repr, DecidableEq

/-- An exchange-format graph (gs.Graph) with its metadata and ordered
node/input/output lists. -/
structure GsGraph where
  name : String
  opset : Nat
  doc_string : String
  import_domains : String
  nodes : List GsNode
  inputs : List GsTensor
  outputs : List GsTensor
deriving Repr, DecidableEq

/-- A visual Input or Output vertex (ONNXInput / ONNXOutput): display name,
dtype and shape of its single tensor.  The peer-name bookkeeping fields
(set_output_names / set_input_names) are display metadata never read by the
wiring or export passes and are not modelled. -/
structure VisIONode where
  name : String
  dtype : Option String
  shape : Option (List Nat)
deriving Repr, DecidableEq

/-- A visual Operator vertex (ONNXNode).  name is the display name assigned at
create_node time, node_name the stored property; import sets both to the
source node name.  inputPortCount / outputPortCount model the vertex's visual
ports.  Modelled from the spec: onnx_node.py is not part of the sources under
review; per the spec an Operator vertex exposes ordered input and output port
lists, wiring always targets port index 0 on either side, and a Constant
vertex has its single synthetic input port deleted after creation — so a
fresh ONNXNode carries one input port and one output port. -/
structure VisNode where
  name : String
  node_name : String
  op : String
  onnx_inputs : List OnnxNodeIO
  onnx_outputs : List OnnxNodeIO
  attrs : Attrs
  inputPortCount : Nat
  outputPortCount : Nat
deriving Repr, DecidableEq

/-- The visual graph (ONNXNodeGraph): session metadata plus the vertex
lists, in creation order. -/
structure VisGraph where
  name : String
  opset : Nat
  doc_string : String
  import_domains : String
  producer_name : String
  producer_version : String
  ir_version : Nat
  model_version : Nat
  inputs : List VisIONode
  outputs : List VisIONode
  nodes : List VisNode
deriving Repr, DecidableEq

/-! ## Import translation (exchange → visual), onnx_node_graph.py 188-259 -/

/-- The input-classification loop of ONNXNodeGraph.create_qtnode (lines
212-224).  The source first tests type(inp) is gs.Tensor; gs.Tensor is
abstract (its constructor raises NotImplementedError), so that arm is
unreachable and has no counterpart here.  A gs.Constant stores
str(values.dtype), its shape and values.tolist(); a gs.Variable with unknown
dtype stores all-null fields; a typed gs.Variable stores str(dtype) and shape;
anything else stores all-null fields. -/
def classify_input_tensor : GsTensor → OnnxNodeIO
  | .const nm t => ⟨nm, some t.dtype, some t.shape, some (tolist t.shape t.data)⟩
  | .var nm none _ => ⟨nm, none, none, none⟩
  | .var nm (some d) sh => ⟨nm, some d, sh, none⟩
  | .other nm => ⟨nm, none, none, none⟩

/-- The output-classification loop of ONNXNodeGraph.create_qtnode (lines
226-238).  Identical case analysis; the only textual difference in the source
sits in the unreachable type(out) is gs.Tensor arm (which reads
out._values.dtype instead of out.dtype) and in the gs.Constant /gs.Variable
arms mirrored here. -/
def classify_output_tensor : GsTensor → OnnxNodeIO
  | .const nm t => ⟨nm, some t.dtype, some t.shape, some (tolist t.shape t.data)⟩
  | .var nm none _ => ⟨nm, none, none, none⟩
  | .var nm (some d) sh => ⟨nm, some d, sh, none⟩
  | .other nm => ⟨nm, none, none, none⟩

/-- ONNXNodeGraph.create_qtnode (lines 208-259).  Builds an Operator vertex:
classifies every input/output tensor, canonicalizes attributes for op
"Constant" into the two-key {dtype, values} mapping read off the "value"
attribute tensor (a missing or non-tensor "value" raises KeyError /
AttributeError and aborts the import), deep-copies attributes verbatim for
every other op, and deletes the single synthetic input port for op
"Constant" (set_port_deletion_allowed toggling has no observable effect
beyond enabling that deletion and is not tracked). -/
def create_qtnode (n : GsNode) : Except String VisNode :=
  let mk : Attrs → VisNode := fun attrs =>
    { name := n.name, node_name := n.name, op := n.op,
      onnx_inputs := n.inputs.map classify_input_tensor,
      onnx_outputs := n.outputs.map classify_output_tensor,
      attrs := attrs,
      inputPortCount := if n.op = "Constant" then 0 else 1,
      outputPortCount := 1 }
  if n.op = "Constant" then
    match n.attrs.lookup "value" with
    | some (.tensor t) =>
      .ok (mk [("dtype", AttrVal.str t.dtype), ("values", AttrVal.nest (tolist t.shape t.data))])
    | _ => .error "KeyError: value"
  else
    .ok (mk n.attrs)

/-- ONNXNodeGraph.create_qtinput (lines 188-196): an Input vertex records the
tensor name, a deep copy of its shape, and its dtype. -/
def create_qtinput (t : GsTensor) : VisIONode :=
  match t with
  | .var nm d sh => ⟨nm, d, sh⟩
  | .const nm v => ⟨nm, some v.dtype, some v.shape⟩
  | .other nm => ⟨nm, none, none⟩

/-- ONNXNodeGraph.create_qtoutput (lines 198-206): same fields as
create_qtinput, for an Output vertex. -/
def create_qtoutput (t : GsTensor) : VisIONode :=
  match t with
  | .var nm d sh => ⟨nm, d, sh⟩
  | .const nm v => ⟨nm, some v.dtype, some v.shape⟩
  | .other nm => ⟨nm, none, none⟩

/-! ## Export translation (visual → exchange), onnx_node_graph.py 355-485 -/

/-- Errors the export pass can raise.  reshapeMismatch models the ValueError
from np.array(val, dtype).reshape(shape) when the element count disagrees
with the shape (or the shape is absent); dtypeKeyError the KeyError from
NUMPY_TYPES_TO_ONNX_DTYPES lookup; attrKeyError a missing "dtype"/"values"
attribute; badAttrValue a non-string dtype or non-numeric values payload that
np.dtype / onnx.helper.make_tensor reject; makeTensorMismatch the element
count check of onnx.helper.make_tensor; indexError the [0] subscript on an
empty output list. -/
inductive ExpErr where
  | reshapeMismatch (name : String)
  | dtypeKeyError (dtype : String)
  | attrKeyError (key : String)
  | badAttrValue
  | makeTensorMismatch (name : String)
  | indexError
deriving Repr, DecidableEq

/-- The mutable state of one export pass: the gs_variables_all dict (name →
materialized tensor, tagged with an allocation id standing for Python object
identity) and the next fresh id. -/
structure ExpState where
  vars : List (String × (GsTensor × Nat))
  nextId : Nat
deriving Repr, DecidableEq

/-- Python dict assignment d[k] = v: replaces the value at the existing key
position, else appends the pair (dict preserves insertion order). -/
def dictSet {α : Type} (k : String) (v : α) : List (String × α) → List (String × α)
  | [] => [(k, v)]
  | (k2, v2) :: rest =>
    if k2 = k then (k, v) :: rest else (k2, v2) :: dictSet k v rest

/-- Materialize a fresh tensor object: record it in gs_variables_all under the
given name and hand back the object together with its identity. -/
def allocVar (nm : String) (t : GsTensor) (st : ExpState) : GsTensor × Nat × ExpState :=
  (t, st.nextId, ⟨dictSet nm (t, st.nextId) st.vars, st.nextId + 1⟩)

/-- One step of the tensor re-hydration loops of NodeGraphtoONNX (lines
379-392 for inputs, 394-407 for outputs; both run the same statement
sequence).  A name already in gs_variables_all resolves to the recorded
object; otherwise dtype None yields a bare variable, an absent or sentinel
(-1) values field yields a shaped variable, and anything else a constant
built by np.array(values, dtype).reshape(shape) — which fails when the shape
is absent or its element count differs from the values count.  Raggedness of
a hand-edited nested values list is not tracked (every list the import pass
stores is a rectangular ndarray.tolist()). -/
def resolveIO (io : OnnxNodeIO) (st : ExpState) : Except ExpErr (GsTensor × Nat × ExpState) :=
  match st.vars.lookup io.name with
  | some (v, i) => .ok (v, i, st)
  | none =>
    match io.dtype with
    | none => .ok (allocVar io.name (GsTensor.var io.name none none) st)
    | some d =>
      if io.values = some (Nest.num (-1)) ∨ io.values = none then
        .ok (allocVar io.name (GsTensor.var io.name (some d) io.shape) st)
      else
        match io.values, io.shape with
        | some v, some s =>
          if (flattenNest v).length = s.prod then
            .ok (allocVar io.name (GsTensor.const io.name ⟨d, s, flattenNest v⟩) st)
          else .error (.reshapeMismatch io.name)
        | _, _ => .error (.reshapeMismatch io.name)

/-- The gs.Variable seeding loops over ONNXInput / ONNXOutput vertices (lines
362-372): each vertex unconditionally materializes a fresh variable and
stores it in gs_variables_all under its display name.  Returns the created
variables, the resolution log (name, object id) and the updated state.  (The
input_names / output_names lists the source also accumulates are never read
afterwards and are not modelled.) -/
def seedLoop : List VisIONode → ExpState → (List GsTensor × List (String × Nat) × ExpState)
  | [], st => ([], [], st)
  | v :: rest, st =>
    let t := GsTensor.var v.name v.dtype v.shape
    let r := seedLoop rest ⟨dictSet v.name (t, st.nextId) st.vars, st.nextId + 1⟩
    (t :: r.1, (v.name, st.nextId) :: r.2.1, r.2.2)

/-- Resolution of a whole ordered tensor list, logging every occurrence. -/
def resolveLoop : List OnnxNodeIO → ExpState → Except ExpErr (List GsTensor × List (String × Nat) × ExpState)
  | [], st => .ok ([], [], st)
  | io :: rest, st =>
    match resolveIO io st with
    | .error e => .error e
    | .ok (t, i, st1) =>
      match resolveLoop rest st1 with
      | .error e => .error e
      | .ok (ts, log, st2) => .ok (t :: ts, (io.name, i) :: log, st2)

/-- The dtype keys of NUMPY_TYPES_TO_ONNX_DTYPES (lines 57-62), in canonical
numpy string form; any other dtype string raises KeyError at line 424. -/
def supportedDtype (d : String) : Bool :=
  d == "float32" || d == "float64" || d == "int32" || d == "int64"

/-- The per-node record synthesis of NodeGraphtoONNX given the resolved
tensor lists (lines 409-474).  A non-constant op becomes a gs.Node carrying
the resolved tensors verbatim (the per-node gs.Graph wrapper at lines
456-462 returns the identical node object).  A "Constant"/"ConstantOfShape"
op is rebuilt from its attributes: the synthesized shape is [len] for a list
value, the array shape for an ndarray value, [1] for a wrapped scalar (a
string scalar fails inside onnx.helper.make_tensor, which also enforces the
element-count/shape agreement); the node travels through
onnx.helper.make_node / make_graph / make_model and back through
gs.import_onnx, yielding a node with a single "value" tensor attribute, no
inputs, and a single fresh output variable typed by the value_info — a new
object distinct from the entry in gs_variables_all. -/
def buildGsNode (n : VisNode) (input_gs output_gs : List GsTensor) : Except ExpErr GsNode :=
  if n.op ≠ "Constant" ∧ n.op ≠ "ConstantOfShape" then
    .ok { op := n.op, name := n.node_name, attrs := n.attrs,
          inputs := input_gs, outputs := output_gs }
  else
    match n.attrs.lookup "dtype" with
    | some (.str d) =>
      if supportedDtype d then
        match n.attrs.lookup "values" with
        | some raw =>
          match (match raw with
                 | .nest (.arr xs) => some (([xs.length] : List Nat), flattenList xs)
                 | .tensor t => some (t.shape, t.data)
                 | .nest (.num k) => some (([1] : List Nat), ([k] : List Int))
                 | .str _ => none) with
          | some (dims, flatVals) =>
            match output_gs with
            | [] => .error ExpErr.indexError
            | v0 :: _ =>
              if flatVals.length = dims.prod then
                .ok { op := n.op, name := n.node_name,
                      attrs := [("value", AttrVal.tensor ⟨d, dims, flatVals⟩)],
                      inputs := [],
                      outputs := [GsTensor.var (tname v0) (some d) (some dims)] }
              else .error (ExpErr.makeTensorMismatch n.node_name)
          | none => .error ExpErr.badAttrValue
        | none => .error (ExpErr.attrKeyError "values")
      else .error (ExpErr.dtypeKeyError d)
    | some _ => .error ExpErr.badAttrValue
    | none => .error (ExpErr.attrKeyError "dtype")

/-- Per-node step of NodeGraphtoONNX (lines 375-474): resolve the ordered
input then output tensor lists through the shared map, then synthesize the
exchange record. -/
def exportNode (n : VisNode) (st : ExpState) : Except ExpErr (GsNode × List (String × Nat) × ExpState) :=
  match resolveLoop n.onnx_inputs st with
  | .error e => .error e
  | .ok (input_gs, ilog, st1) =>
    match resolveLoop n.onnx_outputs st1 with
    | .error e => .error e
    | .ok (output_gs, olog, st2) =>
      match buildGsNode n input_gs output_gs with
      | .error e => .error e
      | .ok gn => .ok (gn, ilog ++ olog, st2)

/-- The node loop of NodeGraphtoONNX. -/
def nodesLoop : List VisNode → ExpState → Except ExpErr (List GsNode × List (String × Nat) × ExpState)
  | [], st => .ok ([], [], st)
  | n :: rest, st =>
    match exportNode n st with
    | .error e => .error e
    | .ok (gn, log1, st1) =>
      match nodesLoop rest st1 with
      | .error e => .error e
      | .ok (gns, log2, st2) => .ok (gn :: gns, log1 ++ log2, st2)

/-- Result of one export pass: the assembled gs.Graph, the full resolution
log (one (name, object id) entry per tensor occurrence handled by the pass)
and the final gs_variables_all state. -/
structure ExpOut where
  graph : GsGraph
  log : List (String × Nat)
  finalState : ExpState
deriving Repr, DecidableEq

/-- NodeGraphtoONNX (lines 355-485): seed variables for every Input and
Output vertex, synthesize every Operator vertex in graph order, and assemble
the final gs.Graph carrying the session metadata. -/
def NodeGraphtoONNX (G : VisGraph) : Except ExpErr ExpOut :=
  match nodesLoop G.nodes (seedLoop G.outputs (seedLoop G.inputs ⟨[], 0⟩).2.2).2.2 with
  | .error e => .error e
  | .ok (gnodes, nlog, st3) =>
    .ok { graph := { name := G.name, opset := G.opset, doc_string := G.doc_string,
                     import_domains := G.import_domains,
                     nodes := gnodes, inputs := (seedLoop G.inputs ⟨[], 0⟩).1,
                     outputs := (seedLoop G.outputs (seedLoop G.inputs ⟨[], 0⟩).2.2).1 },
          log := (seedLoop G.inputs ⟨[], 0⟩).2.1
                 ++ (seedLoop G.outputs (seedLoop G.inputs ⟨[], 0⟩).2.2).2.1 ++ nlog,
          finalState := st3 }

/-! ## Wiring (ONNXtoNodeGraph, lines 504-568) -/

/-- The name-level wiring signature a graph presents to the connection
algorithm: graph input names, graph output names, and per node its name with
its ordered input / output tensor names. -/
structure WireSig where
  inputNames : List String
  outputNames : List String
  nodeSigs : List (String × List String × List String)
deriving Repr, DecidableEq

/-- Wiring signature of an exchange-format graph. -/
def sigOfGs (g : GsGraph) : WireSig :=
  ⟨g.inputs.map tname, g.outputs.map tname,
   g.nodes.map fun n => (n.name, n.inputs.map tname, n.outputs.map tname)⟩

/-- Wiring signature of a visual graph (the same data the export pass would
present). -/
def sigOfVis (G : VisGraph) : WireSig :=
  ⟨G.inputs.map VisIONode.name, G.outputs.map VisIONode.name,
   G.nodes.map fun n =>
     (n.name, n.onnx_inputs.map OnnxNodeIO.name, n.onnx_outputs.map OnnxNodeIO.name)⟩

/-- One qt_edge entry: the consumer node names ("inputs") and producer node
names ("outputs") recorded for a tensor name, in encounter order. -/
structure EdgeEntry where
  inputs : List String
  outputs : List String
deriving Repr, DecidableEq

/-- Record a consumer for a tensor name in the qt_edge dict (lines 524-532). -/
def addConsumer (key node : String) : List (String × EdgeEntry) → List (String × EdgeEntry)
  | [] => [(key, ⟨[node], []⟩)]
  | (k, e) :: rest =>
    if k = key then (k, { e with inputs := e.inputs ++ [node] }) :: rest
    else (k, e) :: addConsumer key node rest

/-- Record a producer for a tensor name in the qt_edge dict (lines 533-540). -/
def addProducer (key node : String) : List (String × EdgeEntry) → List (String × EdgeEntry)
  | [] => [(key, ⟨[], [node]⟩)]
  | (k, e) :: rest =>
    if k = key then (k, { e with outputs := e.outputs ++ [node] }) :: rest
    else (k, e) :: addProducer key node rest

/-- The qt_edge dict built by scanning every node's inputs then outputs
(lines 524-540), keyed by tensor name in first-encounter order. -/
def qtEdge (nodeSigs : List (String × List String × List String)) : List (String × EdgeEntry) :=
  nodeSigs.foldl
    (fun acc ns =>
      let acc1 := ns.2.1.foldl (fun a t => addConsumer t ns.1 a) acc
      ns.2.2.foldl (fun a t => addProducer t ns.1 a) acc1)
    []

/-- Reference to a vertex of the visual graph, by kind and display name. -/
inductive VRef where
  | inV (name : String)
  | outV (name : String)
  | opV (name : String)
deriving Repr, DecidableEq

/-- A port connection: source vertex (its output port 0) to destination
vertex (its input port 0) — the wiring loop always uses port index 0 on both
ends. -/
structure Conn where
  src : VRef
  dst : VRef
deriving Repr, DecidableEq

/-- The connection loop of ONNXtoNodeGraph (lines 545-562): for each qt_edge
entry, wire the matching graph Input vertex to every consumer, every producer
to the matching graph Output vertex, and every producer to every consumer. -/
def connsOfSig (s : WireSig) : List Conn :=
  (qtEdge s.nodeSigs).foldl
    (fun acc kv =>
      let key := kv.1
      let v := kv.2
      let acc1 :=
        if key ∈ s.inputNames then acc ++ v.inputs.map (fun i => ⟨.inV key, .opV i⟩) else acc
      let acc2 :=
        if key ∈ s.outputNames then acc1 ++ v.outputs.map (fun o => ⟨.opV o, .outV key⟩) else acc1
      acc2 ++ (v.inputs.map fun i => v.outputs.map fun o => (⟨.opV o, .opV i⟩ : Conn)).flatten)
    []

/-- A vertex of the visual graph (ONNXInput / ONNXOutput / ONNXNode). -/
inductive Vertex where
  | vin (v : VisIONode)
  | vout (v : VisIONode)
  | vop (n : VisNode)
deriving Repr, DecidableEq

/-- The display name (NodeGraphQt node.name()). -/
def displayName : Vertex → String
  | .vin v => v.name
  | .vout v => v.name
  | .vop n => n.name

/-- The VRef of a vertex. -/
def vref : Vertex → VRef
  | .vin v => .inV v.name
  | .vout v => .outV v.name
  | .vop n => .opV n.name

/-- Number of input ports of a vertex.  Modelled from the spec: ONNXInput
carries a single output port, ONNXOutput a single input port, an Operator
vertex its (possibly zero after Constant port deletion) input ports. -/
def inPortCount : Vertex → Nat
  | .vin _ => 0
  | .vout _ => 1
  | .vop n => n.inputPortCount

/-- Number of output ports of a vertex; see inPortCount. -/
def outPortCount : Vertex → Nat
  | .vin _ => 1
  | .vout _ => 0
  | .vop n => n.outputPortCount

/-- Observable step of the import pass relevant to the wiring/locking
contract: a port connection or a port lock (vertex, input side flag, port
index). -/
inductive Ev where
  | connect (c : Conn)
  | lock (v : VRef) (inputSide : Bool) (idx : Nat)
deriving Repr, DecidableEq

/-- Whether an event is a port lock. -/
def isLockEv : Ev → Bool
  | .lock _ _ _ => true
  | _ => false

/-- All vertices of a visual graph in creation order (inputs, then outputs,
then operator nodes — the order ONNXtoNodeGraph creates them and the order
the NodeGraphQt model dict preserves). -/
def allVertices (G : VisGraph) : List Vertex :=
  G.inputs.map Vertex.vin ++ G.outputs.map Vertex.vout ++ G.nodes.map Vertex.vop

/-- The lock events emitted by the final loop of ONNXtoNodeGraph (lines
563-568): for every vertex, every input port then every output port is
locked. -/
def lockEventsOf (vs : List Vertex) : List Ev :=
  (vs.map fun v =>
    ((List.range (inPortCount v)).map fun i => Ev.lock (vref v) true i) ++
    ((List.range (outPortCount v)).map fun i => Ev.lock (vref v) false i)).flatten

/-- Result of one import pass: the populated visual graph, the connection
list, and the event trace (connections in wiring order followed by the lock
sweep). -/
structure ImportRes where
  graph : VisGraph
  conns : List Conn
  events : List Ev
deriving Repr, DecidableEq

/-- Vertex-creation loop over exchange nodes; a failing create_qtnode aborts
the whole import. -/
def createNodesLoop : List GsNode → Except String (List VisNode)
  | [] => .ok []
  | n :: rest =>
    match create_qtnode n with
    | .error e => .error e
    | .ok v =>
      match createNodesLoop rest with
      | .error e => .error e
      | .ok vs => .ok (v :: vs)

/-- ONNXtoNodeGraph (lines 504-568): create Input/Output vertices, create
Operator vertices, build qt_edge and wire all connections, then lock every
port of every vertex.  host supplies the session metadata of the
ONNXNodeGraph the model is loaded into (its vertex lists are replaced). -/
def ONNXtoNodeGraph (g : GsGraph) (host : VisGraph) : Except String ImportRes :=
  match createNodesLoop g.nodes with
  | .error e => .error e
  | .ok qtNodes =>
    let graph : VisGraph :=
      { host with inputs := g.inputs.map create_qtinput,
                  outputs := g.outputs.map create_qtoutput, nodes := qtNodes }
    let conns := connsOfSig (sigOfGs g)
    .ok { graph := graph, conns := conns,
          events := conns.map Ev.connect ++ lockEventsOf (allVertices graph) }

/-! ## Model serialization (ONNXNodeGraph.to_onnx, lines 267-283) -/

/-- The serialized model artifact (onnx.ModelProto) as to_onnx observes it:
the four stamped metadata fields plus an opaque payload standing for
everything gs.export_onnx wrote. -/
structure OnnxModel where
  producer_name : String
  producer_version : String
  ir_version : Nat
  model_version : Nat
  payload : GsGraph
deriving Repr, DecidableEq

/-- The four metadata assignments at lines 272-275. -/
def stampModel (G : VisGraph) (m : OnnxModel) : OnnxModel :=
  { m with producer_name := G.producer_name, producer_version := G.producer_version,
           ir_version := G.ir_version, model_version := G.model_version }

/-- ONNXNodeGraph.to_onnx (lines 267-283).  self.to_onnx_gs() runs before
the try block, so export errors propagate.  Inside the try block ret starts
as None and is assigned the gs.export_onnx result; any exception from
gs.export_onnx leaves ret None, while an exception from
onnx.checker.check_model occurs after the assignment, so the already-built
model is returned.  The external collaborators gs.export_onnx and
onnx.checker.check_model are parameters: any exception they raise is an
Except.error result. -/
def to_onnx (G : VisGraph) (export_onnx : GsGraph → Except String OnnxModel)
    (check_model : OnnxModel → Except String Unit) : Except ExpErr (Option OnnxModel) :=
  match NodeGraphtoONNX G with
  | .error e => .error e
  | .ok out =>
    match export_onnx out.graph with
    | .error _ => .ok none
    | .ok m =>
      let m2 := stampModel G m
      match check_model m2 with
      | .error _ => .ok (some m2)
      | .ok _ => .ok (some m2)

/-! ## Layout engine (NodeGraphToEdges / auto_layout_nodes, lines 336-501) -/

/-- node.connected_input_nodes() flattened over its ports: the source
vertices of the live connections entering the vertex with the given display
name.  Connections are carried as (source name, destination name) pairs. -/
def connected_input_nodes (conns : List (String × String)) (n : String) : List String :=
  (conns.filter fun c => c.2 == n).map Prod.fst

/-- NodeGraphToEdges (lines 336-352) over the display-name list of all_nodes
(in creation order) and the live connections: with reverse=True the vertex
list is reversed before indexing and edges run (thisIndex, predecessorIndex);
with reverse=False indices are taken in list order and edges run
(predecessorIndex, thisIndex). -/
def NodeGraphToEdges (names : List String) (conns : List (String × String))
    (reverse : Bool) : List (Nat × Nat) :=
  if reverse then
    let node_names := names.reverse
    (node_names.enum.map fun p =>
      (connected_input_nodes conns p.2).map fun inp => (p.1, node_names.indexOf inp)).flatten
  else
    (names.enum.map fun p =>
      (connected_input_nodes conns p.2).map fun inp => (names.indexOf inp, p.1)).flatten

/-- Calls auto_layout_nodes makes on the undo collaborator and the vertex
positions: begin-group, position writes, end-group. -/
inductive UndoEv where
  | beginUndo (label : String)
  | endUndo
  | setPos (node : String) (x y : Int)
deriving Repr, DecidableEq

/-- auto_layout_nodes (lines 487-501): with push_undo the undo group is
opened first; if the derived edge list is empty the function returns
immediately; otherwise every vertex position is written from the Sugiyama
layout coordinates (scaled by -240 / -120) and the undo group is closed.
The igraph layout is the external coords parameter (its numeric output does
not affect the call bracketing). -/
def auto_layout_nodes (names : List String) (conns : List (String × String))
    (coords : Nat → Int × Int) (push_undo : Bool) : List UndoEv :=
  let pre := if push_undo then [UndoEv.beginUndo "Auto Layout Nodes"] else []
  let edges := NodeGraphToEdges names conns true
  if edges.length = 0 then pre
  else
    pre ++
    (names.reverse.enum.map fun p =>
      UndoEv.setPos p.2 (-(coords p.1).1 * 240) (-(coords p.1).2 * 120)) ++
    (if push_undo then [UndoEv.endUndo] else [])

/-! ## Node lookup (ONNXNodeGraph.get_node_by_name, lines 139-155) -/

/-- get_node_by_name over the model's vertex dict in creation order: every
ONNXNode whose stored node_name matches is appended, and every vertex whose
display name matches is appended — both appends can fire for one vertex. -/
def get_node_by_name : List Vertex → String → List Vertex
  | [], _ => []
  | v :: rest, q =>
    (match v with
     | .vop n => if n.node_name = q then [v] else []
     | _ => []) ++
    (if displayName v = q then [v] else []) ++
    get_node_by_name rest q

/-! ## Specification predicates -/

/-- Boolean no-duplicates test on a name list. -/
def nodupB : List String → Bool
  | [] => true
  | x :: xs => (!(decide (x ∈ xs))) && nodupB xs

/-- Whether a nested value is a flat list of scalars. -/
def allNums : List Nest → Bool
  | [] => true
  | .num _ :: rest => allNums rest
  | _ => false

/-- The trace property of claim C5: once the first lock event appears, every
remaining event is a lock — i.e. no connection is interleaved with or
follows the lock sweep. -/
def connectsBeforeLocks (evs : List Ev) : Bool :=
  (evs.dropWhile fun e => !(isLockEv e)).all isLockEv

/-- Every port of every vertex of the imported graph carries a lock event in
the import trace. -/
def allPortsLockedB (r : ImportRes) : Bool :=
  (lockEventsOf (allVertices r.graph)).all fun e => decide (e ∈ r.events)

/-- A per-port tensor record the export re-hydration accepts: either the
dtype is unknown, or the values are absent / the -1 sentinel, or the values
fit the declared shape. -/
def ioWF (io : OnnxNodeIO) : Bool :=
  io.dtype.isNone ||
  (io.values == some (Nest.num (-1)) || io.values == none) ||
  (match io.values, io.shape with
   | some v, some s => (flattenNest v).length == s.prod
   | _, _ => false)

/-- Canonical Constant attribute form {dtype, values} with a supported dtype
and a flat scalar list, as the import pass itself produces for 1-D value
tensors. -/
def constAttrsWF (a : Attrs) : Bool :=
  match a with
  | [(k1, AttrVal.str d), (k2, AttrVal.nest (Nest.arr xs))] =>
    k1 == "dtype" && k2 == "values" && supportedDtype d && allNums xs
  | _ => false

/-- Well-formedness of a visual Operator vertex for the round-trip theorem:
display name and stored node name agree, every port record is acceptable to
the export pass, a Constant vertex carries canonical attributes, no inputs
and exactly one output, and no vertex is a ConstantOfShape (those break the
round trip; see the C1 counterexample). -/
def visNodeWF (n : VisNode) : Bool :=
  n.name == n.node_name &&
  n.onnx_inputs.all ioWF && n.onnx_outputs.all ioWF &&
  (if n.op == "Constant" then
     constAttrsWF n.attrs && n.onnx_inputs.isEmpty && n.onnx_outputs.length == 1
   else n.op != "ConstantOfShape")

/-- Well-formedness of a visual graph for the round-trip theorem: distinct
display names (NodeGraphQt would otherwise rename on creation) and
well-formed operator vertices. -/
def wellFormed (G : VisGraph) : Bool :=
  nodupB (G.inputs.map VisIONode.name ++ G.outputs.map VisIONode.name ++
          G.nodes.map VisNode.name) &&
  G.nodes.all visNodeWF

/-- Whether an attribute mapping is in the canonical Constant {dtype, values}
form the claimed round-trip tolerance allows. -/
def isDtypeValuesForm (a : Attrs) : Bool :=
  match a with
  | [(k1, AttrVal.str _), (k2, _)] => k1 == "dtype" && k2 == "values"
  | _ => false

/-- The isomorphism of claim C1: same Input and Output vertices, same
operator vertex list (name and kind), attribute values equal up to the
canonical Constant {dtype, values} form, and the same name-level port
wiring signature (which determines the derived connection list). -/
def isoUpToConstCanon (G G2 : VisGraph) : Bool :=
  G2.inputs == G.inputs && G2.outputs == G.outputs &&
  G2.nodes.length == G.nodes.length &&
  ((G.nodes.zip G2.nodes).all fun p =>
    p.1.name == p.2.name && p.1.op == p.2.op &&
    (p.2.attrs == p.1.attrs || isDtypeValuesForm p.2.attrs)) &&
  sigOfVis G2 == sigOfVis G

/-- Name-level relation between a visual Operator vertex and the exchange
node the export pass synthesizes for it: same op, the vertex display name
(equal to its stored node name on well-formed graphs), tensor names
preserved positionally, and attributes carried verbatim except for the
Constant rebuild into a single "value" tensor attribute. -/
def exNodeRel (n : VisNode) (gn : GsNode) : Prop :=
  gn.op = n.op ∧ gn.name = n.name ∧
  gn.inputs.map tname = n.onnx_inputs.map OnnxNodeIO.name ∧
  gn.outputs.map tname = n.onnx_outputs.map OnnxNodeIO.name ∧
  ((n.op = "Constant" ∧ ∃ d ys,
      n.attrs = [("dtype", AttrVal.str d), ("values", AttrVal.nest (Nest.arr (ys.map Nest.num)))] ∧
      gn.attrs = [("value", AttrVal.tensor ⟨d, [ys.length], ys⟩)]) ∨
   (n.op ≠ "Constant" ∧ gn.attrs = n.attrs))

/-- Relation between an original visual Operator vertex and its re-imported
counterpart after one export/import round trip of a well-formed graph: all
claim-relevant fields survive unchanged. -/
def impNodeRel (n v : VisNode) : Prop :=
  v.name = n.name ∧ v.op = n.op ∧ v.attrs = n.attrs ∧
  v.onnx_inputs.map OnnxNodeIO.name = n.onnx_inputs.map OnnxNodeIO.name ∧
  v.onnx_outputs.map OnnxNodeIO.name = n.onnx_outputs.map OnnxNodeIO.name

/-- All entries of a resolution log agree with the final tensor map. -/
def stHasAll (st : ExpState) (log : List (String × Nat)) : Prop :=
  ∀ p ∈ log, ∃ t, st.vars.lookup p.1 = some (t, p.2)

/-- The tensor map of the second state answers every query the first one
answers, identically (the map is insert-only across the node loops). -/
def stExtends (st st2 : ExpState) : Prop :=
  ∀ k x, st.vars.lookup k = some x → st2.vars.lookup k = some x

/-- Every map entry stores a tensor whose name is its key. -/
def varsOk (st : ExpState) : Prop :=
  ∀ p ∈ st.vars, tname p.2.1 = p.1

/-! ## Concrete fixtures used by the closed witness theorems -/

/-- A small well-formed visual graph: Input x → Relu → Output y plus an
unconnected Constant vertex. -/
def Gw : VisGraph :=
  { name := "g", opset := 13, doc_string := "", import_domains := "",
    producer_name := "p", producer_version := "1", ir_version := 8, model_version := 0,
    inputs := [⟨"x", some "float32", some [1, 3]⟩],
    outputs := [⟨"y", some "float32", some [1, 3]⟩],
    nodes :=
      [{ name := "relu1", node_name := "relu1", op := "Relu",
         onnx_inputs := [⟨"x", some "float32", some [1, 3], none⟩],
         onnx_outputs := [⟨"y", some "float32", some [1, 3], none⟩],
         attrs := [], inputPortCount := 1, outputPortCount := 1 },
       { name := "c1", node_name := "c1", op := "Constant",
         onnx_inputs := [],
         onnx_outputs := [⟨"cv", some "int64", some [2], none⟩],
         attrs := [("dtype", AttrVal.str "int64"),
                   ("values", AttrVal.nest (.arr [.num 1, .num 2]))],
         inputPortCount := 0, outputPortCount := 1 }] }

/-- An empty host graph carrying only session metadata. -/
def HostW : VisGraph :=
  { name := "g", opset := 13, doc_string := "", import_domains := "",
    producer_name := "p", producer_version := "1", ir_version := 8, model_version := 0,
    inputs := [], outputs := [], nodes := [] }

/-- A concrete Constant exchange node with a 1-D value tensor. -/
def constNode1d : GsNode :=
  ⟨"Constant", "c", [("value", AttrVal.tensor ⟨"int64", [2], [5, 6]⟩)], [],
   [GsTensor.var "t" (some "int64") (some [2])]⟩

/-- The Operator vertex create_qtnode builds from constNode1d. -/
def constVis1d : VisNode :=
  ⟨"c", "c", "Constant", [], [⟨"t", some "int64", some [2], none⟩],
   [("dtype", AttrVal.str "int64"), ("values", AttrVal.nest (.arr [.num 5, .num 6]))], 0, 1⟩

/-! ## Theorems -/

/-- C8: the four-way classification of a tensor reference stores the same
(name, dtype, shape, values) tuple whether the reference appears in an
operator's input list or its output list — classify_input_tensor and
classify_output_tensor agree on every tensor the translator can receive. -/
theorem classification_input_output_agree (t : GsTensor) :
    classify_input_tensor t = classify_output_tensor t := by
  cases t with
  | var nm d sh => cases d <;> rfl
  | const nm v => rfl
  | other nm => rfl

/-- C9: the code violates the bracketing contract.  With undo recording
enabled on a graph with a single unconnected vertex the derived edge list is
empty, and auto_layout_nodes returns right after the begin-group call: the
undo trace is exactly one beginUndo event and contains no endUndo. -/
theorem auto_layout_unbalanced_undo_group :
    auto_layout_nodes ["A"] [] (fun _ => (0, 0)) true
      = [UndoEv.beginUndo "Auto Layout Nodes"] ∧
    (auto_layout_nodes ["A"] [] (fun _ => (0, 0)) true).count UndoEv.endUndo = 0 := by
  exact ⟨rfl, by decide⟩

/-- C10: get_node_by_name can return the same vertex more than once — any
Operator vertex whose stored node_name equals its display name and matches
the query is appended by both membership tests, so it occurs at least twice
in the result. -/
theorem get_node_by_name_duplicates (vs : List Vertex) (n : VisNode) (q : String)
    (hmem : Vertex.vop n ∈ vs) (hnn : n.node_name = q) (hdn : n.name = q) :
    2 ≤ (get_node_by_name vs q).count (Vertex.vop n) := by
  induction vs with
  | nil => cases hmem
  | cons v rest ih =>
    rcases List.mem_cons.mp hmem with h | h
    · subst h
      simp only [get_node_by_name]
      rw [if_pos hnn, if_pos (show displayName (Vertex.vop n) = q from hdn)]
      rw [List.count_append, List.count_append]
      have h1 : ([Vertex.vop n].count (Vertex.vop n)) = 1 := by simp
      omega
    · have hrec := ih h
      simp only [get_node_by_name]
      rw [List.count_append, List.count_append]
      omega

/-- C10 witness: a concrete Operator vertex named A both ways occurs twice in
the lookup result. -/
theorem get_node_by_name_duplicates_witness :
    2 ≤ (get_node_by_name [Vertex.vop ⟨"A", "A", "Relu", [], [], [], 1, 1⟩] "A").count
        (Vertex.vop ⟨"A", "A", "Relu", [], [], [], 1, 1⟩) :=
  get_node_by_name_duplicates _ _ _ (by simp) rfl rfl

/-- C4 amended: to_onnx never lets an exception of the serialization try
block escape, but a null result signals only a gs.export_onnx failure: when
the structural check (or anything after the assignment to ret) raises, the
already-built stamped model is returned, so a non-null result does not mean
the model passed the check.  (Errors of the graph translation itself occur
before the try block and still propagate.) -/
theorem to_onnx_error_handling (G : VisGraph) (export_onnx : GsGraph → Except String OnnxModel)
    (check_model : OnnxModel → Except String Unit) :
    to_onnx G export_onnx check_model = (NodeGraphtoONNX G).map fun out =>
      match export_onnx out.graph with
      | .error _ => none
      | .ok m => some (stampModel G m) := by
  unfold to_onnx
  cases hx : NodeGraphtoONNX G with
  | error e => rfl
  | ok out =>
    simp only [Except.map]
    cases export_onnx out.graph with
    | error e => rfl
    | ok m =>
      show (match check_model (stampModel G m) with
            | .error _ => (Except.ok (some (stampModel G m)) : Except ExpErr (Option OnnxModel))
            | .ok _ => Except.ok (some (stampModel G m)))
          = Except.ok (some (stampModel G m))
      cases check_model (stampModel G m) <;> rfl

/-- C4 counterexample: on the empty graph with a serializer that succeeds and
a structural check that raises, to_onnx returns the stamped model, not the
null result the claim requires for any exception raised during serialization
including the correctness check. -/
theorem to_onnx_check_failure_cx :
    to_onnx HostW (fun _ => .ok ⟨"", "", 0, 0, ⟨"g", 13, "", "", [], [], []⟩⟩)
        (fun _ => .error "check failed")
      = .ok (some ⟨"p", "1", 8, 0, ⟨"g", 13, "", "", [], [], []⟩⟩) ∧
    (some (⟨"p", "1", 8, 0, ⟨"g", 13, "", "", [], [], []⟩⟩ : OnnxModel)
      ≠ (none : Option OnnxModel)) := by
  exact ⟨rfl, by decide⟩

/-- Helper: for a tensor reference whose name is not yet materialized, the export
re-hydration follows exactly the claimed case order — null dtype gives a bare
unknown-typed variable (dtype and shape both null); otherwise absent or
sentinel (-1) values give a shaped variable carrying the stored dtype and
shape; otherwise a constant is built from the values reshaped to the stored
shape, and a values/shape mismatch (or an absent shape) is a hard failure. -/
theorem resolveIO_unseen_spec (io : OnnxNodeIO) (st : ExpState)
    (h : st.vars.lookup io.name = none) :
    (io.dtype = none →
      resolveIO io st = .ok (allocVar io.name (GsTensor.var io.name none none) st)) ∧
    (∀ d, io.dtype = some d → (io.values = none ∨ io.values = some (Nest.num (-1))) →
      resolveIO io st = .ok (allocVar io.name (GsTensor.var io.name (some d) io.shape) st)) ∧
    (∀ d v, io.dtype = some d → io.values = some v → v ≠ Nest.num (-1) →
      (∀ s, io.shape = some s →
        ((flattenNest v).length = s.prod →
          resolveIO io st
            = .ok (allocVar io.name (GsTensor.const io.name ⟨d, s, flattenNest v⟩) st)) ∧
        ((flattenNest v).length ≠ s.prod →
          resolveIO io st = .error (ExpErr.reshapeMismatch io.name))) ∧
      (io.shape = none → resolveIO io st = .error (ExpErr.reshapeMismatch io.name))) := by
  unfold resolveIO
  rw [h]
  refine ⟨?_, ?_, ?_⟩
  · intro hd; simp only [hd]
  · intro d hd hv
    simp only [hd]
    rcases hv with h1 | h1
    · rw [if_pos (Or.inr h1)]
    · rw [if_pos (Or.inl h1)]
  · intro d v hd hv hne
    simp only [hd, hv]
    have hcond : ¬(some v = some (Nest.num (-1)) ∨ (some v : Option Nest) = none) := by
      rintro (hc | hc)
      · exact hne (Option.some.inj hc)
      · cases hc
    rw [if_neg hcond]
    constructor
    · intro s hs
      simp only [hs]
      constructor
      · intro hlen; rw [if_pos hlen]
      · intro hlen; rw [if_neg hlen]
    · intro hs; simp only [hs]

/-- C3: for a tensor reference whose name is not yet materialized, the export
re-hydration follows exactly the claimed case order — null dtype gives a bare
unknown-typed variable (dtype and shape both null); otherwise absent or
sentinel (-1) values give a shaped variable carrying the stored dtype and
shape; otherwise a constant is built from the values reshaped to the stored
shape, and a values/shape mismatch (or an absent shape) is a hard failure. -/
theorem resolveIO_unseen_case_order (io : OnnxNodeIO) (st : ExpState)
    (h : st.vars.lookup io.name = none) :
    (io.dtype = none →
      resolveIO io st = .ok (allocVar io.name (GsTensor.var io.name none none) st)) ∧
    (∀ d, io.dtype = some d → (io.values = none ∨ io.values = some (Nest.num (-1))) →
      resolveIO io st = .ok (allocVar io.name (GsTensor.var io.name (some d) io.shape) st)) ∧
    (∀ d v, io.dtype = some d → io.values = some v → v ≠ Nest.num (-1) →
      (∀ s, io.shape = some s →
        ((flattenNest v).length = s.prod →
          resolveIO io st
            = .ok (allocVar io.name (GsTensor.const io.name ⟨d, s, flattenNest v⟩) st)) ∧
        ((flattenNest v).length ≠ s.prod →
          resolveIO io st = .error (ExpErr.reshapeMismatch io.name))) ∧
      (io.shape = none → resolveIO io st = .error (ExpErr.reshapeMismatch io.name))) :=
  resolveIO_unseen_spec io st h

/-- C3 witness: an unseen reference with null dtype becomes a bare variable. -/
theorem resolveIO_unseen_case_order_witness :
    (ExpState.mk [] 0).vars.lookup "a" = none ∧
    resolveIO ⟨"a", none, none, none⟩ ⟨[], 0⟩
      = .ok (allocVar "a" (GsTensor.var "a" none none) ⟨[], 0⟩) :=
  ⟨rfl, (resolveIO_unseen_case_order ⟨"a", none, none, none⟩ ⟨[], 0⟩ rfl).1 rfl⟩

/-- C7 amended: on import, operator attributes are deep-copied verbatim
except for operatorType "Constant", where they collapse to exactly the
two-key mapping {dtype: str(value-tensor dtype), values: value-tensor
contents via tolist()} — a nested list mirroring the tensor shape, flat only
for 1-D tensors — and the original "value" key is discarded. -/
theorem create_qtnode_attr_canonicalization (n : GsNode) (v : VisNode)
    (h : create_qtnode n = .ok v) :
    (n.op ≠ "Constant" → v.attrs = n.attrs) ∧
    (n.op = "Constant" → ∃ t, n.attrs.lookup "value" = some (AttrVal.tensor t) ∧
      v.attrs = [("dtype", AttrVal.str t.dtype),
                 ("values", AttrVal.nest (tolist t.shape t.data))] ∧
      v.attrs.lookup "value" = none) := by
  simp only [create_qtnode] at h
  by_cases hop : n.op = "Constant"
  · rw [if_pos hop] at h
    refine ⟨fun hne => absurd hop hne, fun _ => ?_⟩
    cases hl : n.attrs.lookup "value" with
    | none => rw [hl] at h; cases h
    | some a =>
      rw [hl] at h
      cases a with
      | str s => cases h
      | nest w => cases h
      | tensor t =>
        cases h
        exact ⟨t, rfl, rfl, by simp [List.lookup]⟩
  · rw [if_neg hop] at h
    cases h
    exact ⟨fun _ => rfl, fun hc => absurd hc hop⟩

/-- C7 witness: a Constant operator with a 1-D value tensor gets exactly the
canonical {dtype, values} attributes and loses the "value" key. -/
theorem create_qtnode_attr_canonicalization_witness :
    create_qtnode constNode1d = .ok constVis1d ∧
    ((constNode1d.op ≠ "Constant" → constVis1d.attrs = constNode1d.attrs) ∧
     (constNode1d.op = "Constant" →
        ∃ t, constNode1d.attrs.lookup "value" = some (AttrVal.tensor t) ∧
          constVis1d.attrs = [("dtype", AttrVal.str t.dtype),
                              ("values", AttrVal.nest (tolist t.shape t.data))] ∧
          constVis1d.attrs.lookup "value" = none)) :=
  ⟨rfl, create_qtnode_attr_canonicalization constNode1d constVis1d rfl⟩

/-- C7 counterexample: a Constant operator with a 2×2 value tensor stores its
values as the nested list [[1,2],[3,4]] — not the flattened list [1,2,3,4]
the claim states. -/
theorem constant_attrs_not_flattened_cx :
    (create_qtnode ⟨"Constant", "c",
        [("value", AttrVal.tensor ⟨"int64", [2, 2], [1, 2, 3, 4]⟩)], [],
        [GsTensor.var "t" (some "int64") (some [2, 2])]⟩).map VisNode.attrs
      = .ok [("dtype", AttrVal.str "int64"),
             ("values", AttrVal.nest (.arr [.arr [.num 1, .num 2], .arr [.num 3, .num 4]]))] ∧
    Nest.arr [.arr [.num 1, .num 2], .arr [.num 3, .num 4]]
      ≠ Nest.arr [.num 1, .num 2, .num 3, .num 4] := by
  exact ⟨rfl, by decide⟩

/-- Inversion of a successful per-node export step into its three stages. -/
theorem exportNode_inv (n : VisNode) (st : ExpState) (gn : GsNode)
    (log : List (String × Nat)) (st2 : ExpState)
    (h : exportNode n st = .ok (gn, log, st2)) :
    ∃ igs ilog st1 ogs olog,
      resolveLoop n.onnx_inputs st = .ok (igs, ilog, st1) ∧
      resolveLoop n.onnx_outputs st1 = .ok (ogs, olog, st2) ∧
      buildGsNode n igs ogs = .ok gn ∧ log = ilog ++ olog := by
  unfold exportNode at h
  repeat' split at h
  all_goals cases h
  exact ⟨_, _, _, _, _, by assumption, by assumption, by assumption, rfl⟩

/-- A successfully synthesized record for a Constant-kind vertex has an empty
input list. -/
theorem buildGsNode_constant_inputs (m : VisNode) (igs ogs : List GsTensor) (gn : GsNode)
    (hop : m.op = "Constant" ∨ m.op = "ConstantOfShape")
    (h : buildGsNode m igs ogs = .ok gn) : gn.inputs = [] := by
  have hcond : ¬(m.op ≠ "Constant" ∧ m.op ≠ "ConstantOfShape") := by
    rcases hop with h1 | h1 <;> simp [h1]
  unfold buildGsNode at h
  rw [if_neg hcond] at h
  repeat' split at h
  all_goals cases h
  all_goals rfl

/-- C6 amended: after the import translation pass a vertex of kind Constant
has zero input ports (its synthetic port is deleted), and the operator record
the export pass synthesizes for a Constant or ConstantOfShape vertex has an
empty input list; but a ConstantOfShape vertex keeps its input port on
re-import (only "Constant" triggers the port deletion). -/
theorem constant_kind_port_counts (n : GsNode) (v : VisNode) (h : create_qtnode n = .ok v)
    (m : VisNode) (st : ExpState) (gn : GsNode) (lg : List (String × Nat)) (st2 : ExpState)
    (hop : m.op = "Constant" ∨ m.op = "ConstantOfShape")
    (he : exportNode m st = .ok (gn, lg, st2)) :
    (n.op = "Constant" → v.inputPortCount = 0) ∧ gn.inputs = [] := by
  constructor
  · intro hc
    simp only [create_qtnode] at h
    rw [if_pos hc] at h
    cases hl : n.attrs.lookup "value" with
    | none => rw [hl] at h; cases h
    | some a =>
      rw [hl] at h
      cases a with
      | str s => cases h
      | nest w => cases h
      | tensor t => cases h; simp [hc]
  · obtain ⟨igs, ilog, st1, ogs, olog, h1, h2, hb, hlg⟩ := exportNode_inv m st gn lg st2 he
    exact buildGsNode_constant_inputs m igs ogs gn hop hb

/-- C6 witness: a concrete Constant vertex has zero input ports after import,
and a concrete Constant vertex exports to a record with no inputs. -/
theorem constant_kind_port_counts_witness :
    create_qtnode constNode1d = .ok constVis1d ∧
    (constVis1d.op = "Constant" ∨ constVis1d.op = "ConstantOfShape") ∧
    exportNode constVis1d ⟨[], 0⟩
      = .ok (⟨"Constant", "c", [("value", AttrVal.tensor ⟨"int64", [2], [5, 6]⟩)], [],
              [GsTensor.var "t" (some "int64") (some [2])]⟩,
             [("t", 0)], ⟨[("t", (GsTensor.var "t" (some "int64") (some [2]), 0))], 1⟩) ∧
    ((constNode1d.op = "Constant" → constVis1d.inputPortCount = 0) ∧
     (⟨"Constant", "c", [("value", AttrVal.tensor ⟨"int64", [2], [5, 6]⟩)], [],
       [GsTensor.var "t" (some "int64") (some [2])]⟩ : GsNode).inputs = []) :=
  ⟨rfl, Or.inl rfl, rfl,
   constant_kind_port_counts constNode1d constVis1d rfl constVis1d ⟨[], 0⟩ _ _ _
     (Or.inl rfl) rfl⟩

/-- C6 counterexample: a ConstantOfShape operator record imported by
create_qtnode keeps its single input port — the input-port count after
the import pass is 1, not 0. -/
theorem constantofshape_import_port_cx :
    (create_qtnode ⟨"ConstantOfShape", "cos", [("value", AttrVal.tensor ⟨"int64", [1], [0]⟩)],
        [], [GsTensor.var "t" (some "int64") (some [1])]⟩).map VisNode.inputPortCount
      = .ok 1 ∧ (1 : Nat) ≠ 0 := by
  exact ⟨rfl, by decide⟩

/-- Every event of the lock sweep is a lock event. -/
theorem isLock_of_mem_lockEventsOf (vs : List Vertex) (e : Ev) (h : e ∈ lockEventsOf vs) :
    isLockEv e = true := by
  unfold lockEventsOf at h
  rw [List.mem_flatten] at h
  obtain ⟨l, hl, he⟩ := h
  rw [List.mem_map] at hl
  obtain ⟨v, hv, rfl⟩ := hl
  rcases List.mem_append.mp he with h1 | h1 <;>
    · rw [List.mem_map] at h1
      obtain ⟨i, hi, rfl⟩ := h1
      rfl

/-- A trace of connection events followed by lock-only events satisfies the
connect-before-lock discipline. -/
theorem connectsBeforeLocks_append (cs : List Conn) (ls : List Ev)
    (hl : ∀ e ∈ ls, isLockEv e = true) :
    connectsBeforeLocks (cs.map Ev.connect ++ ls) = true := by
  unfold connectsBeforeLocks
  induction cs with
  | nil =>
    cases ls with
    | nil => rfl
    | cons x xs =>
      simp only [List.map_nil, List.nil_append, List.dropWhile_cons]
      rw [hl x (List.mem_cons_self x xs)]
      simp only [Bool.not_true, Bool.false_eq_true, if_false, List.all_eq_true]
      exact fun e he => hl e he
  | cons c cs ih =>
    simp only [List.map_cons, List.cons_append, List.dropWhile_cons]
    exact ih

/-- C5: after a successful import, the event trace wires every connection
strictly before the lock sweep begins (no lock is interleaved with wiring),
and every input and output port of every vertex of the resulting visual
graph carries a lock event. -/
theorem import_locks_after_wiring (g : GsGraph) (host : VisGraph) (r : ImportRes)
    (h : ONNXtoNodeGraph g host = .ok r) :
    connectsBeforeLocks r.events = true ∧ allPortsLockedB r = true := by
  unfold ONNXtoNodeGraph at h
  cases hc : createNodesLoop g.nodes with
  | error e => rw [hc] at h; cases h
  | ok qtNodes =>
    rw [hc] at h
    have hr := Except.ok.inj h
    subst hr
    constructor
    · exact connectsBeforeLocks_append _ _ (fun e he => isLock_of_mem_lockEventsOf _ e he)
    · unfold allPortsLockedB
      rw [List.all_eq_true]
      intro e he
      rw [decide_eq_true_eq]
      exact List.mem_append_right _ he

/-- C5 witness: importing a one-input exchange graph yields a trace whose
single event locks the Input vertex's output port, with no connection after
it. -/
theorem import_locks_after_wiring_witness :
    ONNXtoNodeGraph ⟨"g", 13, "", "", [], [GsTensor.var "x" (some "float32") (some [1])], []⟩ HostW
      = .ok ⟨⟨"g", 13, "", "", "p", "1", 8, 0, [⟨"x", some "float32", some [1]⟩], [], []⟩,
             [], [Ev.lock (VRef.inV "x") false 0]⟩ ∧
    (connectsBeforeLocks
        (ImportRes.mk ⟨"g", 13, "", "", "p", "1", 8, 0, [⟨"x", some "float32", some [1]⟩], [], []⟩
          [] [Ev.lock (VRef.inV "x") false 0]).events = true ∧
     allPortsLockedB ⟨⟨"g", 13, "", "", "p", "1", 8, 0, [⟨"x", some "float32", some [1]⟩], [], []⟩,
                      [], [Ev.lock (VRef.inV "x") false 0]⟩ = true) :=
  ⟨rfl, import_locks_after_wiring
    ⟨"g", 13, "", "", [], [GsTensor.var "x" (some "float32") (some [1])], []⟩ HostW
    ⟨⟨"g", 13, "", "", "p", "1", 8, 0, [⟨"x", some "float32", some [1]⟩], [], []⟩,
     [], [Ev.lock (VRef.inV "x") false 0]⟩ rfl⟩

/-- List.lookup on a cons cell, phrased with propositional equality. -/
theorem lookup_cons {α : Type} (a k : String) (v : α) (l : List (String × α)) :
    ((k, v) :: l).lookup a = if a = k then some v else l.lookup a := by
  by_cases h : a = k
  · subst h; simp [List.lookup]
  · have hb : (a == k) = false := beq_eq_false_iff_ne.mpr h
    simp [List.lookup, hb, h]

/-- Lookup after a Python dict assignment. -/
theorem lookup_dictSet {α : Type} (k k2 : String) (v : α) (l : List (String × α)) :
    (dictSet k v l).lookup k2 = if k2 = k then some v else l.lookup k2 := by
  induction l with
  | nil => simp [dictSet, lookup_cons]
  | cons p rest ih =>
    obtain ⟨k3, v3⟩ := p
    unfold dictSet
    by_cases h : k3 = k
    · rw [if_pos h, lookup_cons, lookup_cons]
      subst h
      split_ifs <;> rfl
    · rw [if_neg h, lookup_cons, lookup_cons, ih]
      split_ifs <;>
        first
          | rfl
          | exact absurd ((‹k2 = k3›).symm.trans ‹k2 = k›) h

/-- A successful resolution leaves the map unchanged (name already present)
or extends it at exactly the resolved name. -/
theorem resolveIO_state (io : OnnxNodeIO) (st : ExpState) (t : GsTensor) (i : Nat)
    (st2 : ExpState) (h : resolveIO io st = .ok (t, i, st2)) :
    st2 = st ∨ (st.vars.lookup io.name = none ∧ ∃ y, st2.vars = dictSet io.name y st.vars) := by
  unfold resolveIO allocVar at h
  cases hl : st.vars.lookup io.name with
  | some p =>
    rw [hl] at h
    obtain ⟨tv, iv⟩ := p
    cases h
    exact Or.inl rfl
  | none =>
    rw [hl] at h
    refine Or.inr ⟨rfl, ?_⟩
    repeat' split at h
    all_goals try contradiction
    all_goals cases h
    all_goals exact ⟨_, rfl⟩

/-- Resolution never overwrites: every previously answered lookup is
preserved. -/
theorem resolveIO_extends (io : OnnxNodeIO) (st : ExpState) (t : GsTensor) (i : Nat)
    (st2 : ExpState) (h : resolveIO io st = .ok (t, i, st2)) : stExtends st st2 := by
  rcases resolveIO_state io st t i st2 h with rfl | ⟨hnone, y, hvars⟩
  · exact fun k x hx => hx
  · intro k x hx
    rw [hvars, lookup_dictSet]
    have hk : k ≠ io.name := fun he => by rw [he, hnone] at hx; cases hx
    rw [if_neg hk]
    exact hx

/-- After a successful resolution, the map answers the resolved name with the
returned object identity. -/
theorem resolveIO_log (io : OnnxNodeIO) (st : ExpState) (t : GsTensor) (i : Nat)
    (st2 : ExpState) (h : resolveIO io st = .ok (t, i, st2)) :
    st2.vars.lookup io.name = some (t, i) := by
  unfold resolveIO allocVar at h
  cases hl : st.vars.lookup io.name with
  | some p =>
    rw [hl] at h
    obtain ⟨tv, iv⟩ := p
    cases h
    exact hl
  | none =>
    rw [hl] at h
    repeat' split at h
    all_goals try contradiction
    all_goals cases h
    all_goals rw [lookup_dictSet, if_pos rfl]

/-- Inversion of a successful resolution-loop step. -/
theorem resolveLoop_cons_inv (io : OnnxNodeIO) (rest : List OnnxNodeIO) (st : ExpState)
    (ts : List GsTensor) (log : List (String × Nat)) (st2 : ExpState)
    (h : resolveLoop (io :: rest) st = .ok (ts, log, st2)) :
    ∃ t i st1 ts2 log2, resolveIO io st = .ok (t, i, st1) ∧
      resolveLoop rest st1 = .ok (ts2, log2, st2) ∧
      ts = t :: ts2 ∧ log = (io.name, i) :: log2 := by
  unfold resolveLoop at h
  repeat' split at h
  all_goals try contradiction
  all_goals cases h
  exact ⟨_, _, _, _, _, by assumption, by assumption, rfl, rfl⟩

/-- The tensor-list resolution loop is insert-only and its log agrees with
the state it returns. -/
theorem resolveLoop_props (ios : List OnnxNodeIO) (st : ExpState) (ts : List GsTensor)
    (log : List (String × Nat)) (st2 : ExpState)
    (h : resolveLoop ios st = .ok (ts, log, st2)) :
    stExtends st st2 ∧ stHasAll st2 log := by
  induction ios generalizing st ts log st2 with
  | nil =>
    cases h
    exact ⟨fun k x hx => hx, fun p hp => absurd hp (List.not_mem_nil p)⟩
  | cons io rest ih =>
    obtain ⟨t, i, st1, ts2, log2, heq1, heq2, rfl, rfl⟩ :=
      resolveLoop_cons_inv io rest st ts log st2 h
    obtain ⟨e2, a2⟩ := ih st1 ts2 log2 st2 heq2
    have e1 := resolveIO_extends io st t i st1 heq1
    refine ⟨fun k x hx => e2 k x (e1 k x hx), ?_⟩
    intro p hp
    rcases List.mem_cons.mp hp with rfl | hp2
    · exact ⟨t, e2 _ _ (resolveIO_log io st t i st1 heq1)⟩
    · exact a2 p hp2

/-- The keys of the seeding log are the seeded vertex names, in order. -/
theorem seedLoop_log_keys (vs : List VisIONode) (st : ExpState) :
    (seedLoop vs st).2.1.map Prod.fst = vs.map VisIONode.name := by
  induction vs generalizing st with
  | nil => rfl
  | cons v rest ih => simp [seedLoop, ih]

/-- Seeding leaves lookups of names outside the seeded list unchanged. -/
theorem seedLoop_lookup_preserved (vs : List VisIONode) (st : ExpState) (k : String)
    (hk : k ∉ vs.map VisIONode.name) :
    (seedLoop vs st).2.2.vars.lookup k = st.vars.lookup k := by
  induction vs generalizing st with
  | nil => rfl
  | cons v rest ih =>
    simp only [List.map_cons, List.mem_cons, not_or] at hk
    simp only [seedLoop]
    rw [ih _ hk.2, lookup_dictSet, if_neg hk.1]

/-- With pairwise-distinct names, every seeding-log entry agrees with the
state the seeding loop returns. -/
theorem seedLoop_hasAll (vs : List VisIONode) (st : ExpState)
    (hnd : nodupB (vs.map VisIONode.name) = true) :
    stHasAll (seedLoop vs st).2.2 (seedLoop vs st).2.1 := by
  induction vs generalizing st with
  | nil => exact fun p hp => absurd hp (List.not_mem_nil p)
  | cons v rest ih =>
    simp only [List.map_cons, nodupB, Bool.and_eq_true, Bool.not_eq_true',
               decide_eq_false_iff_not] at hnd
    intro p hp
    simp only [seedLoop] at hp ⊢
    rcases List.mem_cons.mp hp with rfl | hp2
    · refine ⟨GsTensor.var v.name v.dtype v.shape, ?_⟩
      rw [seedLoop_lookup_preserved rest _ v.name hnd.1, lookup_dictSet, if_pos rfl]
    · exact ih _ hnd.2 p hp2

/-- Splitting a Boolean no-duplicates certificate over an append. -/
theorem nodupB_append_parts (a b : List String) (h : nodupB (a ++ b) = true) :
    nodupB a = true ∧ nodupB b = true ∧ ∀ x ∈ a, x ∉ b := by
  induction a with
  | nil => exact ⟨rfl, h, fun x hx => absurd hx (List.not_mem_nil x)⟩
  | cons y ys ih =>
    rw [List.cons_append] at h
    unfold nodupB at h
    rw [Bool.and_eq_true, Bool.not_eq_true', decide_eq_false_iff_not] at h
    obtain ⟨hy, hrest⟩ := h
    obtain ⟨h1, h2, h3⟩ := ih hrest
    refine ⟨?_, h2, ?_⟩
    · unfold nodupB
      rw [Bool.and_eq_true, Bool.not_eq_true', decide_eq_false_iff_not]
      exact ⟨fun hm => hy (List.mem_append_left _ hm), h1⟩
    · intro x hx
      rcases List.mem_cons.mp hx with rfl | hx2
      · exact fun hb => hy (List.mem_append_right _ hb)
      · exact h3 x hx2

/-- One export node step is insert-only and its log agrees with the state it
returns. -/
theorem exportNode_extends_hasAll (n : VisNode) (st : ExpState) (gn : GsNode)
    (log : List (String × Nat)) (st2 : ExpState)
    (h : exportNode n st = .ok (gn, log, st2)) :
    stExtends st st2 ∧ stHasAll st2 log := by
  obtain ⟨igs, ilog, st1, ogs, olog, h1, h2, hb, rfl⟩ := exportNode_inv n st gn log st2 h
  obtain ⟨e1, a1⟩ := resolveLoop_props n.onnx_inputs st igs ilog st1 h1
  obtain ⟨e2, a2⟩ := resolveLoop_props n.onnx_outputs st1 ogs olog st2 h2
  refine ⟨fun k x hx => e2 k x (e1 k x hx), fun p hp => ?_⟩
  rcases List.mem_append.mp hp with hp1 | hp2
  · obtain ⟨t, ht⟩ := a1 p hp1
    exact ⟨t, e2 _ _ ht⟩
  · exact a2 p hp2

/-- Inversion of a successful node-loop step. -/
theorem nodesLoop_cons_inv (n : VisNode) (rest : List VisNode) (st : ExpState)
    (gns : List GsNode) (log : List (String × Nat)) (st2 : ExpState)
    (h : nodesLoop (n :: rest) st = .ok (gns, log, st2)) :
    ∃ gn log1 st1 gns2 log2, exportNode n st = .ok (gn, log1, st1) ∧
      nodesLoop rest st1 = .ok (gns2, log2, st2) ∧
      gns = gn :: gns2 ∧ log = log1 ++ log2 := by
  unfold nodesLoop at h
  repeat' split at h
  all_goals try contradiction
  all_goals cases h
  exact ⟨_, _, _, _, _, by assumption, by assumption, rfl, rfl⟩

/-- The node loop is insert-only and its log agrees with the state it
returns. -/
theorem nodesLoop_extends_hasAll (ns : List VisNode) (st : ExpState) (gns : List GsNode)
    (log : List (String × Nat)) (st2 : ExpState)
    (h : nodesLoop ns st = .ok (gns, log, st2)) :
    stExtends st st2 ∧ stHasAll st2 log := by
  induction ns generalizing st gns log st2 with
  | nil =>
    cases h
    exact ⟨fun k x hx => hx, fun p hp => absurd hp (List.not_mem_nil p)⟩
  | cons n rest ih =>
    obtain ⟨gn, log1, st1, gns2, log2, heq1, heq2, rfl, rfl⟩ :=
      nodesLoop_cons_inv n rest st gns log st2 h
    obtain ⟨e1, a1⟩ := exportNode_extends_hasAll n st gn log1 st1 heq1
    obtain ⟨e2, a2⟩ := ih st1 gns2 log2 st2 heq2
    refine ⟨fun k x hx => e2 k x (e1 k x hx), fun p hp => ?_⟩
    rcases List.mem_append.mp hp with hp1 | hp2
    · obtain ⟨t, ht⟩ := a1 p hp1
      exact ⟨t, e2 _ _ ht⟩
    · exact a2 p hp2

/-- Inversion of a successful whole-graph export. -/
theorem NodeGraphtoONNX_inv (G : VisGraph) (out : ExpOut) (h : NodeGraphtoONNX G = .ok out) :
    ∃ gnodes nlog st3,
      nodesLoop G.nodes (seedLoop G.outputs (seedLoop G.inputs ⟨[], 0⟩).2.2).2.2
        = .ok (gnodes, nlog, st3) ∧
      out = { graph := { name := G.name, opset := G.opset, doc_string := G.doc_string,
                         import_domains := G.import_domains,
                         nodes := gnodes, inputs := (seedLoop G.inputs ⟨[], 0⟩).1,
                         outputs := (seedLoop G.outputs (seedLoop G.inputs ⟨[], 0⟩).2.2).1 },
              log := (seedLoop G.inputs ⟨[], 0⟩).2.1
                     ++ (seedLoop G.outputs (seedLoop G.inputs ⟨[], 0⟩).2.2).2.1 ++ nlog,
              finalState := st3 } := by
  unfold NodeGraphtoONNX at h
  repeat' split at h
  all_goals try contradiction
  all_goals cases h
  exact ⟨_, _, _, by assumption, rfl⟩

/-- C2: within one export pass whose Input/Output vertex names are pairwise
distinct (NodeGraphQt enforces unique display names), every tensor name
resolves to exactly one identity-shared object: whenever two entries of the
occurrence log carry the same name, they carry the same object identity. -/
theorem export_identity_sharing (G : VisGraph)
    (hnd : nodupB (G.inputs.map VisIONode.name ++ G.outputs.map VisIONode.name) = true)
    (out : ExpOut) (h : NodeGraphtoONNX G = .ok out) :
    ∀ p ∈ out.log, ∀ q ∈ out.log, p.1 = q.1 → p.2 = q.2 := by
  obtain ⟨hndi, hndo, hdisj⟩ := nodupB_append_parts _ _ hnd
  obtain ⟨gnodes, nlog, st3, heq, rfl⟩ := NodeGraphtoONNX_inv G out h
  have hall : stHasAll st3
      ((seedLoop G.inputs ⟨[], 0⟩).2.1
        ++ (seedLoop G.outputs (seedLoop G.inputs ⟨[], 0⟩).2.2).2.1 ++ nlog) := by
    obtain ⟨e3, a3⟩ := nodesLoop_extends_hasAll G.nodes _ gnodes nlog st3 heq
    intro p hp
    rcases List.mem_append.mp hp with hp12 | hp3
    · rcases List.mem_append.mp hp12 with hp1 | hp2
      · obtain ⟨t, ht⟩ := seedLoop_hasAll G.inputs ⟨[], 0⟩ hndi p hp1
        refine ⟨t, e3 _ _ ?_⟩
        rw [seedLoop_lookup_preserved G.outputs _ p.1 ?_]
        · exact ht
        · have hmem : p.1 ∈ G.inputs.map VisIONode.name := by
            rw [← seedLoop_log_keys G.inputs ⟨[], 0⟩]
            exact List.mem_map_of_mem Prod.fst hp1
          exact hdisj p.1 hmem
      · obtain ⟨t, ht⟩ := seedLoop_hasAll G.outputs _ hndo p hp2
        exact ⟨t, e3 _ _ ht⟩
    · exact a3 p hp3
  intro p hp q hq hpq
  obtain ⟨tp, htp⟩ := hall p hp
  obtain ⟨tq, htq⟩ := hall q hq
  rw [hpq] at htp
  rw [htp] at htq
  have h9 : (tp, p.2) = (tq, q.2) := Option.some.inj htq
  exact congrArg (fun r : GsTensor × Nat => r.2) h9

/-- C2 witness: the export occurrence log of Gw resolves every repeated name
("x" and "y" each occur both as a graph boundary and as a Relu port) to one
identity. -/
theorem export_identity_sharing_witness :
    nodupB (Gw.inputs.map VisIONode.name ++ Gw.outputs.map VisIONode.name) = true ∧
    (("x", 0) : String × Nat) ∈ [("x", 0), ("y", 1), ("x", 0), ("y", 1), ("cv", 2)] ∧
    ((("x", 0) : String × Nat).1 = ("x", 0).1 → (("x", 0) : String × Nat).2 = ("x", 0).2) :=
  ⟨by decide, by decide,
   export_identity_sharing Gw (by decide)
     ⟨⟨"g", 13, "", "",
       [⟨"Relu", "relu1", [], [GsTensor.var "x" (some "float32") (some [1, 3])],
         [GsTensor.var "y" (some "float32") (some [1, 3])]⟩,
        ⟨"Constant", "c1", [("value", AttrVal.tensor ⟨"int64", [2], [1, 2]⟩)], [],
         [GsTensor.var "cv" (some "int64") (some [2])]⟩],
       [GsTensor.var "x" (some "float32") (some [1, 3])],
       [GsTensor.var "y" (some "float32") (some [1, 3])]⟩,
      [("x", 0), ("y", 1), ("x", 0), ("y", 1), ("cv", 2)],
      ⟨[("x", (GsTensor.var "x" (some "float32") (some [1, 3]), 0)),
        ("y", (GsTensor.var "y" (some "float32") (some [1, 3]), 1)),
        ("cv", (GsTensor.var "cv" (some "int64") (some [2]), 2))], 3⟩⟩
     rfl ("x", 0) (by decide) ("x", 0) (by decide)⟩

/-- A flat scalar list is a map of Nest.num over its payload. -/
theorem allNums_exists (xs : List Nest) (h : allNums xs = true) :
    ∃ ys : List Int, xs = ys.map Nest.num := by
  induction xs with
  | nil => exact ⟨[], rfl⟩
  | cons x rest ih =>
    cases x with
    | num n =>
      obtain ⟨ys, rfl⟩ := ih h
      exact ⟨n :: ys, rfl⟩
    | arr l => cases h

/-- Flattening a flat scalar list recovers its payload. -/
theorem flattenList_map_num (ys : List Int) : flattenList (ys.map Nest.num) = ys := by
  induction ys with
  | nil => rfl
  | cons y rest ih => simp [flattenList, flattenNest, ih]

/-- Indexed head-of-drop enumeration of a list. -/
theorem range_map_drop_headD (ys : List Int) :
    (List.range ys.length).map (fun i => Nest.num ((ys.drop i).headD 0)) = ys.map Nest.num := by
  induction ys with
  | nil => rfl
  | cons y t ih =>
    rw [List.length_cons, List.range_succ_eq_map, List.map_cons, List.map_map, List.map_cons]
    refine congrArg₂ _ rfl ?_
    rw [← ih]
    apply List.map_congr_left
    intro i hi
    simp [Function.comp, List.drop_succ_cons]

/-- tolist on a 1-D tensor is the flat scalar list of its payload. -/
theorem tolist_one_dim (ys : List Int) : tolist [ys.length] ys = Nest.arr (ys.map Nest.num) := by
  show Nest.arr _ = _
  congr 1
  rw [← range_map_drop_headD ys]
  apply List.map_congr_left
  intro i hi
  show tolist [] ((ys.drop (i * List.prod [])).take (List.prod [])) = Nest.num ((ys.drop i).headD 0)
  rw [List.prod_nil, Nat.mul_one]
  show Nest.num (((ys.drop i).take 1).headD 0) = _
  congr 1
  cases ys.drop i <;> rfl

/-- The classification keeps the tensor name (input side). -/
theorem classify_input_tensor_name (t : GsTensor) :
    (classify_input_tensor t).name = tname t := by
  cases t with
  | var nm d sh => cases d <;> rfl
  | const nm v => rfl
  | other nm => rfl

/-- The classification keeps the tensor name (output side). -/
theorem classify_output_tensor_name (t : GsTensor) :
    (classify_output_tensor t).name = tname t := by
  cases t with
  | var nm d sh => cases d <;> rfl
  | const nm v => rfl
  | other nm => rfl

/-- Name lists survive input classification. -/
theorem classify_input_names (ts : List GsTensor) :
    (ts.map classify_input_tensor).map OnnxNodeIO.name = ts.map tname := by
  rw [List.map_map]
  exact List.map_congr_left fun t _ => classify_input_tensor_name t

/-- Name lists survive output classification. -/
theorem classify_output_names (ts : List GsTensor) :
    (ts.map classify_output_tensor).map OnnxNodeIO.name = ts.map tname := by
  rw [List.map_map]
  exact List.map_congr_left fun t _ => classify_output_tensor_name t

/-- An Input vertex created from the variable seeded for it is the original
vertex. -/
theorem create_qtinput_var (v : VisIONode) :
    create_qtinput (GsTensor.var v.name v.dtype v.shape) = v := rfl

/-- An Output vertex created from the variable seeded for it is the original
vertex. -/
theorem create_qtoutput_var (v : VisIONode) :
    create_qtoutput (GsTensor.var v.name v.dtype v.shape) = v := rfl

/-- Membership after a Python dict assignment. -/
theorem mem_dictSet {α : Type} (p : String × α) (k : String) (v : α) (l : List (String × α))
    (h : p ∈ dictSet k v l) : p ∈ l ∨ p = (k, v) := by
  induction l with
  | nil => exact Or.inr (List.mem_singleton.mp h)
  | cons q rest ih =>
    obtain ⟨k2, v2⟩ := q
    unfold dictSet at h
    by_cases h2 : k2 = k
    · rw [if_pos h2] at h
      rcases List.mem_cons.mp h with rfl | hm
      · exact Or.inr rfl
      · exact Or.inl (List.mem_cons_of_mem _ hm)
    · rw [if_neg h2] at h
      rcases List.mem_cons.mp h with rfl | hm
      · exact Or.inl (List.mem_cons_self _ _)
      · rcases ih hm with hm2 | rfl
        · exact Or.inl (List.mem_cons_of_mem _ hm2)
        · exact Or.inr rfl

/-- A successful lookup names a member. -/
theorem lookup_mem {α : Type} (k : String) (l : List (String × α)) (v : α)
    (h : l.lookup k = some v) : (k, v) ∈ l := by
  induction l with
  | nil => cases h
  | cons p rest ih =>
    obtain ⟨k2, v2⟩ := p
    rw [lookup_cons] at h
    by_cases h2 : k = k2
    · rw [if_pos h2] at h
      cases h
      subst h2
      exact List.mem_cons_self _ _
    · rw [if_neg h2] at h
      exact List.mem_cons_of_mem _ (ih h)

/-- The seeding loop emits one fresh variable per vertex. -/
theorem seedLoop_tensors (vs : List VisIONode) (st : ExpState) :
    (seedLoop vs st).1 = vs.map fun v => GsTensor.var v.name v.dtype v.shape := by
  induction vs generalizing st with
  | nil => rfl
  | cons v rest ih => simp [seedLoop, ih]

/-- The seeding loop preserves the key-names-its-tensor map invariant. -/
theorem varsOk_seedLoop (vs : List VisIONode) (st : ExpState) (hok : varsOk st) :
    varsOk (seedLoop vs st).2.2 := by
  induction vs generalizing st with
  | nil => exact hok
  | cons v rest ih =>
    simp only [seedLoop]
    apply ih
    intro p hp
    rcases mem_dictSet p _ _ _ hp with hmem | rfl
    · exact hok p hmem
    · rfl

/-- Under the acceptance predicate, resolution succeeds, returns a tensor
carrying the reference's name, and preserves the map-naming invariant. -/
theorem resolveIO_ok_of_wf (io : OnnxNodeIO) (st : ExpState) (hok : varsOk st)
    (hwf : ioWF io = true) :
    ∃ t i st2, resolveIO io st = .ok (t, i, st2) ∧ tname t = io.name ∧ varsOk st2 := by
  cases hl : st.vars.lookup io.name with
  | some p =>
    obtain ⟨tv, iv⟩ := p
    refine ⟨tv, iv, st, ?_, hok (io.name, (tv, iv)) (lookup_mem _ _ _ hl), hok⟩
    simp only [ resolveIO, hl]
  | none =>
    have hspec := resolveIO_unseen_spec io st hl
    have hpres : ∀ t2 : GsTensor, tname t2 = io.name →
        varsOk ⟨dictSet io.name (t2, st.nextId) st.vars, st.nextId + 1⟩ := by
      intro t2 ht2 p hp
      rcases mem_dictSet p _ _ _ hp with hmem | rfl
      · exact hok p hmem
      · exact ht2
    cases hd : io.dtype with
    | none =>
      rw [hspec.1 hd]
      exact ⟨_, _, _, rfl, rfl, hpres _ rfl⟩
    | some d =>
      by_cases hv : io.values = none ∨ io.values = some (Nest.num (-1))
      · rw [hspec.2.1 d hd hv]
        exact ⟨_, _, _, rfl, rfl, hpres _ rfl⟩
      · cases hval : io.values with
        | none => exact absurd (Or.inl hval) hv
        | some v =>
          have hvne : v ≠ Nest.num (-1) := fun he => hv (Or.inr (by rw [hval, he]))
          cases hs : io.shape with
          | none =>
            exfalso
            unfold ioWF at hwf
            rw [hd, hval, hs] at hwf
            simp at hwf
            exact hvne hwf
          | some s =>
            unfold ioWF at hwf
            rw [hd, hval, hs] at hwf
            simp at hwf
            rcases hwf with he | hlen
            · exact absurd he hvne
            · rw [((hspec.2.2 d v hd hval hvne).1 s hs).1 hlen]
              exact ⟨_, _, _, rfl, rfl, hpres _ rfl⟩

/-- Under the acceptance predicate, the resolution loop succeeds and keeps
the positional tensor names. -/
theorem resolveLoop_ok_of_wf (ios : List OnnxNodeIO) (st : ExpState) (hok : varsOk st)
    (hwf : ios.all ioWF = true) :
    ∃ ts log st2, resolveLoop ios st = .ok (ts, log, st2) ∧
      ts.map tname = ios.map OnnxNodeIO.name ∧ varsOk st2 := by
  induction ios generalizing st with
  | nil => exact ⟨[], [], st, rfl, rfl, hok⟩
  | cons io rest ih =>
    rw [List.all_cons, Bool.and_eq_true] at hwf
    obtain ⟨t, i, st1, h1, hn1, hok1⟩ := resolveIO_ok_of_wf io st hok hwf.1
    obtain ⟨ts2, log2, st2, h2, hn2, hok2⟩ := ih st1 hok1 hwf.2
    refine ⟨t :: ts2, (io.name, i) :: log2, st2, ?_, ?_, hok2⟩
    · unfold resolveLoop
      simp only [h1]
      simp only [h2]
    · simp [hn1, hn2]

/-- Inversion of the canonical Constant attribute form. -/
theorem constAttrsWF_inv (a : Attrs) (h : constAttrsWF a = true) :
    ∃ (d : String) (ys : List Int),
      a = [("dtype", AttrVal.str d), ("values", AttrVal.nest (Nest.arr (ys.map Nest.num)))] ∧
      supportedDtype d = true := by
  unfold constAttrsWF at h
  split at h
  · rw [Bool.and_eq_true, Bool.and_eq_true, Bool.and_eq_true] at h
    obtain ⟨⟨⟨h1, h2⟩, h3⟩, h4⟩ := h
    obtain ⟨ys, rfl⟩ := allNums_exists _ h4
    exact ⟨_, ys, by rw [eq_of_beq h1, eq_of_beq h2], h3⟩
  · cases h

/-- Under well-formedness, the per-node export step succeeds and the
synthesized record is name-related to the vertex. -/
theorem exportNode_ok_of_wf (n : VisNode) (st : ExpState) (hok : varsOk st)
    (hwf : visNodeWF n = true) :
    ∃ gn log st2, exportNode n st = .ok (gn, log, st2) ∧ exNodeRel n gn ∧ varsOk st2 := by
  unfold visNodeWF at hwf
  rw [Bool.and_eq_true, Bool.and_eq_true, Bool.and_eq_true] at hwf
  obtain ⟨⟨⟨hname, hin⟩, hout⟩, hrest⟩ := hwf
  obtain ⟨igs, ilog, st1, hr1, hin_names, hok1⟩ := resolveLoop_ok_of_wf n.onnx_inputs st hok hin
  obtain ⟨ogs, olog, st2, hr2, hout_names, hok2⟩ := resolveLoop_ok_of_wf n.onnx_outputs st1 hok1 hout
  have hnm : n.name = n.node_name := eq_of_beq hname
  by_cases hop : n.op = "Constant"
  · simp only [hop] at hrest
    rw [if_pos (by rfl)] at hrest
    rw [Bool.and_eq_true, Bool.and_eq_true] at hrest
    obtain ⟨⟨hca, hie⟩, hol⟩ := hrest
    obtain ⟨d, ys, hattrs, hd⟩ := constAttrsWF_inv n.attrs hca
    have hie2 : n.onnx_inputs = [] := by
      cases hmm : n.onnx_inputs with
      | nil => rfl
      | cons a b => rw [hmm] at hie; cases hie
    have holen : n.onnx_outputs.length = 1 := by
      have := eq_of_beq hol
      exact_mod_cast this
    have hogslen : ogs.length = 1 := by
      have hll := congrArg List.length hout_names
      rw [List.length_map, List.length_map] at hll
      rw [hll, holen]
    obtain ⟨t0, rfl⟩ : ∃ t0, ogs = [t0] := by
      cases ogs with
      | nil => cases hogslen
      | cons a b =>
        cases b with
        | nil => exact ⟨a, rfl⟩
        | cons c dd => cases hogslen
    have hbv : (("values" : String) == "dtype") = false := by decide
    have hbuild : buildGsNode n igs [t0] = .ok
        { op := n.op, name := n.node_name,
          attrs := [("value", AttrVal.tensor ⟨d, [ys.length], ys⟩)],
          inputs := [],
          outputs := [GsTensor.var (tname t0) (some d) (some [ys.length])] } := by
      unfold buildGsNode
      rw [if_neg (by simp [hop]), hattrs]
      simp [List.lookup, hbv, hd, flattenList_map_num]
    refine ⟨{ op := n.op, name := n.node_name,
              attrs := [("value", AttrVal.tensor ⟨d, [ys.length], ys⟩)],
              inputs := [],
              outputs := [GsTensor.var (tname t0) (some d) (some [ys.length])] },
            ilog ++ olog, st2, ?_, ?_, hok2⟩
    · unfold exportNode
      simp only [hr1]
      simp only [hr2]
      simp only [hbuild]
    · refine ⟨rfl, hnm.symm, ?_, ?_, Or.inl ⟨hop, d, ys, hattrs, rfl⟩⟩
      · rw [hie2]
        rfl
      · exact hout_names
  · have hrest2 : n.op ≠ "ConstantOfShape" := by
      rw [if_neg (by simp [hop])] at hrest
      simpa using hrest
    refine ⟨{ op := n.op, name := n.node_name, attrs := n.attrs, inputs := igs, outputs := ogs },
            ilog ++ olog, st2, ?_, ?_, hok2⟩
    · unfold exportNode
      simp only [hr1]
      simp only [hr2]
      unfold buildGsNode
      rw [if_pos ⟨hop, hrest2⟩]
    · exact ⟨rfl, hnm.symm, hin_names, hout_names, Or.inr ⟨hop, rfl⟩⟩

/-- Under well-formedness, the node loop succeeds and relates the vertex and
record lists pointwise. -/
theorem nodesLoop_ok_of_wf (ns : List VisNode) (st : ExpState) (hok : varsOk st)
    (hwf : ns.all visNodeWF = true) :
    ∃ gns log st2, nodesLoop ns st = .ok (gns, log, st2) ∧
      List.Forall₂ exNodeRel ns gns ∧ varsOk st2 := by
  induction ns generalizing st with
  | nil => exact ⟨[], [], st, rfl, List.Forall₂.nil, hok⟩
  | cons n rest ih =>
    rw [List.all_cons, Bool.and_eq_true] at hwf
    obtain ⟨gn, log1, st1, h1, hrel, hok1⟩ := exportNode_ok_of_wf n st hok hwf.1
    obtain ⟨gns2, log2, st2, h2, hrel2, hok2⟩ := ih st1 hok1 hwf.2
    refine ⟨gn :: gns2, log1 ++ log2, st2, ?_, List.Forall₂.cons hrel hrel2, hok2⟩
    unfold nodesLoop
    simp only [h1]
    simp only [h2]

/-- Re-importing a record the export pass synthesized for a well-formed
vertex reproduces all claim-relevant vertex fields. -/
theorem create_qtnode_of_rel (n : VisNode) (gn : GsNode) (hrel : exNodeRel n gn) :
    ∃ v, create_qtnode gn = .ok v ∧ impNodeRel n v := by
  obtain ⟨hop, hgname, hinames, honames, hattrs⟩ := hrel
  unfold create_qtnode
  rcases hattrs with ⟨hopc, d, ys, hna, hga⟩ | ⟨hopnc, hga⟩
  · rw [if_pos (by rw [hop, hopc]), hga]
    rw [show (List.lookup "value" [("value", AttrVal.tensor ⟨d, [ys.length], ys⟩)])
        = some (AttrVal.tensor ⟨d, [ys.length], ys⟩) from by simp [List.lookup]]
    refine ⟨_, rfl, hgname, hop, ?_, ?_, ?_⟩
    · show [("dtype", AttrVal.str d), ("values", AttrVal.nest (tolist [ys.length] ys))] = n.attrs
      rw [hna, tolist_one_dim]
    · rw [classify_input_names, hinames]
    · rw [classify_output_names, honames]
  · rw [if_neg (by rw [hop]; exact hopnc)]
    exact ⟨_, rfl, hgname, hop, hga,
           by rw [classify_input_names, hinames],
           by rw [classify_output_names, honames]⟩

/-- Re-importing all synthesized records reproduces the vertex list. -/
theorem createNodesLoop_of_rel (ns : List VisNode) (gns : List GsNode)
    (hrel : List.Forall₂ exNodeRel ns gns) :
    ∃ vs, createNodesLoop gns = .ok vs ∧ List.Forall₂ impNodeRel ns vs := by
  induction hrel with
  | nil => exact ⟨[], rfl, List.Forall₂.nil⟩
  | cons h1 h2 ih =>
    obtain ⟨v, hv, hrelv⟩ := create_qtnode_of_rel _ _ h1
    obtain ⟨vs, hvs, hrelvs⟩ := ih
    refine ⟨v :: vs, ?_, List.Forall₂.cons hrelv hrelvs⟩
    unfold createNodesLoop
    simp only [hv]
    simp only [hvs]

/-- The vertex zip check of the isomorphism holds between a graph and its
round-trip image. -/
theorem iso_zip_all (ns vs : List VisNode) (h : List.Forall₂ impNodeRel ns vs) :
    ((ns.zip vs).all fun p => p.1.name == p.2.name && p.1.op == p.2.op &&
      (p.2.attrs == p.1.attrs || isDtypeValuesForm p.2.attrs)) = true := by
  induction h with
  | nil => rfl
  | cons h1 h2 ih =>
    obtain ⟨hn, ho, ha, _, _⟩ := h1
    simp [List.zip_cons_cons, ih, hn, ho, ha]

/-- The wiring-signature node entries survive the round trip. -/
theorem sig_nodes_eq (ns vs : List VisNode) (h : List.Forall₂ impNodeRel ns vs) :
    vs.map (fun n => (n.name, n.onnx_inputs.map OnnxNodeIO.name,
                      n.onnx_outputs.map OnnxNodeIO.name))
      = ns.map (fun n => (n.name, n.onnx_inputs.map OnnxNodeIO.name,
                          n.onnx_outputs.map OnnxNodeIO.name)) := by
  induction h with
  | nil => rfl
  | cons h1 h2 ih =>
    obtain ⟨hn, _, _, hi, ho⟩ := h1
    simp [ih, hn, hi, ho]

/-- The wiring-signature node entries of the exported graph match the
original visual graph. -/
theorem sigGs_nodes_eq (ns : List VisNode) (gns : List GsNode)
    (h : List.Forall₂ exNodeRel ns gns) :
    gns.map (fun n => (n.name, n.inputs.map tname, n.outputs.map tname))
      = ns.map (fun n => (n.name, n.onnx_inputs.map OnnxNodeIO.name,
                          n.onnx_outputs.map OnnxNodeIO.name)) := by
  induction h with
  | nil => rfl
  | cons h1 h2 ih =>
    obtain ⟨_, hn, hi, ho, _⟩ := h1
    simp [ih, hn, hi, ho]

/-- Seeded variables carry the vertex names. -/
theorem seedLoop_tensor_names (vs : List VisIONode) (st : ExpState) :
    (seedLoop vs st).1.map tname = vs.map VisIONode.name := by
  rw [seedLoop_tensors, List.map_map]
  exact List.map_congr_left fun v _ => rfl

/-- Re-importing the seeded input variables reproduces the Input vertices. -/
theorem seeded_create_qtinput (vs : List VisIONode) (st : ExpState) :
    (seedLoop vs st).1.map create_qtinput = vs := by
  rw [seedLoop_tensors, List.map_map]
  have h2 : (create_qtinput ∘ fun v => GsTensor.var v.name v.dtype v.shape)
      = fun v : VisIONode => v := by
    funext v
    exact create_qtinput_var v
  rw [h2]
  exact List.map_id vs

/-- Re-importing the seeded output variables reproduces the Output
vertices. -/
theorem seeded_create_qtoutput (vs : List VisIONode) (st : ExpState) :
    (seedLoop vs st).1.map create_qtoutput = vs := by
  rw [seedLoop_tensors, List.map_map]
  have h2 : (create_qtoutput ∘ fun v => GsTensor.var v.name v.dtype v.shape)
      = fun v : VisIONode => v := by
    funext v
    exact create_qtoutput_var v
  rw [h2]
  exact List.map_id vs

/-- C1 amended: for every well-formed visual graph (distinct display names,
display names equal to stored node names, export-acceptable port records,
Constant vertices in canonical flat {dtype, values} form with a supported
dtype, no inputs and one output, and no ConstantOfShape vertices), the
export pass succeeds, re-importing the exchange graph succeeds, and the
result is isomorphic to the original: identical Input/Output vertices,
identical operator names, kinds and attribute values, the same name-level
port-wiring signature, and the derived connection list of the original
graph.  ConstantOfShape vertices are excluded: they break the isomorphism
(see the counterexample). -/
theorem roundtrip_iso (G : VisGraph) (host : VisGraph) (hwf : wellFormed G = true) :
    ∃ out r, NodeGraphtoONNX G = .ok out ∧ ONNXtoNodeGraph out.graph host = .ok r ∧
      isoUpToConstCanon G r.graph = true ∧ r.conns = connsOfSig (sigOfVis G) := by
  unfold wellFormed at hwf
  rw [Bool.and_eq_true] at hwf
  obtain ⟨hnd, hallwf⟩ := hwf
  have hok0 : varsOk ⟨[], 0⟩ := fun p hp => absurd hp (List.not_mem_nil p)
  have hok1 := varsOk_seedLoop G.inputs ⟨[], 0⟩ hok0
  have hok2 := varsOk_seedLoop G.outputs (seedLoop G.inputs ⟨[], 0⟩).2.2 hok1
  obtain ⟨gns, nlog, st3, hnodes, hrel, hok3⟩ :=
    nodesLoop_ok_of_wf G.nodes (seedLoop G.outputs (seedLoop G.inputs ⟨[], 0⟩).2.2).2.2 hok2 hallwf
  obtain ⟨vs, hvs, hrelv⟩ := createNodesLoop_of_rel G.nodes gns hrel
  have hexp : NodeGraphtoONNX G = .ok
      ⟨⟨G.name, G.opset, G.doc_string, G.import_domains, gns,
        (seedLoop G.inputs ⟨[], 0⟩).1, (seedLoop G.outputs (seedLoop G.inputs ⟨[], 0⟩).2.2).1⟩,
       (seedLoop G.inputs ⟨[], 0⟩).2.1
         ++ (seedLoop G.outputs (seedLoop G.inputs ⟨[], 0⟩).2.2).2.1 ++ nlog,
       st3⟩ := by
    unfold NodeGraphtoONNX
    simp only [hnodes]
  cases hres : ONNXtoNodeGraph
      ⟨G.name, G.opset, G.doc_string, G.import_domains, gns,
       (seedLoop G.inputs ⟨[], 0⟩).1, (seedLoop G.outputs (seedLoop G.inputs ⟨[], 0⟩).2.2).1⟩
      host with
  | error e =>
    unfold ONNXtoNodeGraph at hres
    simp only [hvs] at hres
    cases hres
  | ok r =>
    have hres2 := hres
    unfold ONNXtoNodeGraph at hres2
    simp only [hvs] at hres2
    injection hres2 with hr
    subst hr
    refine ⟨_, _, hexp, hres, ?_, ?_⟩
    · unfold isoUpToConstCanon
      have hinp : (seedLoop G.inputs ⟨[], 0⟩).1.map create_qtinput = G.inputs :=
        seeded_create_qtinput G.inputs ⟨[], 0⟩
      have hout : (seedLoop G.outputs (seedLoop G.inputs ⟨[], 0⟩).2.2).1.map create_qtoutput
          = G.outputs := seeded_create_qtoutput G.outputs (seedLoop G.inputs ⟨[], 0⟩).2.2
      have hlen : vs.length = G.nodes.length := (List.Forall₂.length_eq hrelv).symm
      have hzip := iso_zip_all G.nodes vs hrelv
      have hsig := sig_nodes_eq G.nodes vs hrelv
      simp [sigOfVis, hinp, hout, hlen, hzip, hsig]
    · show connsOfSig _ = connsOfSig (sigOfVis G)
      refine congrArg connsOfSig ?_
      unfold sigOfGs sigOfVis
      rw [show ((⟨G.name, G.opset, G.doc_string, G.import_domains, gns,
          (seedLoop G.inputs ⟨[], 0⟩).1,
          (seedLoop G.outputs (seedLoop G.inputs ⟨[], 0⟩).2.2).1⟩ : GsGraph).inputs
            = (seedLoop G.inputs ⟨[], 0⟩).1) from rfl]
      rw [seedLoop_tensor_names, seedLoop_tensor_names]
      exact congrArg _ (sigGs_nodes_eq G.nodes gns hrel)

/-- C1 witness: the well-formed graph Gw (Input x → Relu → Output y plus a
canonical Constant vertex) round-trips to an isomorphic graph. -/
theorem roundtrip_iso_witness :
    wellFormed Gw = true ∧
    ∃ out r, NodeGraphtoONNX Gw = .ok out ∧ ONNXtoNodeGraph out.graph HostW = .ok r ∧
      isoUpToConstCanon Gw r.graph = true ∧ r.conns = connsOfSig (sigOfVis Gw) :=
  ⟨by decide, roundtrip_iso Gw HostW (by decide)⟩

/-- C1 counterexample: a graph with a single ConstantOfShape vertex (int64,
canonical {dtype, values} attributes, one output — only supported shapes)
exports and re-imports successfully, but the result is not isomorphic to
the original even up to Constant-kind attribute canonicalization: the
re-imported vertex carries the raw {value: tensor} attribute mapping, which
neither equals the original attributes nor is in {dtype, values} form. -/
theorem roundtrip_constantofshape_cx :
    ((NodeGraphtoONNX
        { name := "g", opset := 13, doc_string := "", import_domains := "",
          producer_name := "p", producer_version := "1", ir_version := 8, model_version := 0,
          inputs := [], outputs := [],
          nodes := [{ name := "cos1", node_name := "cos1", op := "ConstantOfShape",
                      onnx_inputs := [],
                      onnx_outputs := [⟨"t", some "int64", some [1], none⟩],
                      attrs := [("dtype", AttrVal.str "int64"),
                                ("values", AttrVal.nest (.arr [.num 0]))],
                      inputPortCount := 1, outputPortCount := 1 }] }).toOption.bind
      fun out => (ONNXtoNodeGraph out.graph HostW).toOption.map
        fun r => isoUpToConstCanon
          { name := "g", opset := 13, doc_string := "", import_domains := "",
            producer_name := "p", producer_version := "1", ir_version := 8, model_version := 0,
            inputs := [], outputs := [],
            nodes := [{ name := "cos1", node_name := "cos1", op := "ConstantOfShape",
                        onnx_inputs := [],
                        onnx_outputs := [⟨"t", some "int64", some [1], none⟩],
                        attrs := [("dtype", AttrVal.str "int64"),
                                  ("values", AttrVal.nest (.arr [.num 0]))],
                        inputPortCount := 1, outputPortCount := 1 }] } r.graph)
      = some false := by
  decide

end OnnxGraphQt
